import Mathlib

/-!
Shallow embedding of `src/thoth/solver/python/python.py` (thoth-solver,
Python-ecosystem dependency resolution).

External collaborators (command execution, the requirement parser, the
version-range solver, package-index hash lookup) are modelled as an
`Oracle` record of pure functions.  Command execution is keyed by a call
counter so that successive invocations of the same command string may
observe different environment states; every executed command string is
recorded in a trace.  Exceptions are modelled with `Except PyErr`;
`CommandError` is the only exception caught by the traversal's
`try/except` block, mirroring the source.

Ghost instrumentation (never influencing control flow): the `trace` of
executed commands, the `probed` list of (name, version) pairs popped from
the work queue, and the `Bool` flag returned by `installAndInspect`
recording whether the restoration step of the context manager ran.
-/

namespace ThothSolver

/-- One `dependencies` element of a pipdeptree JSON entry. -/
structure PdtDependency where
  key : String
  package_name : String
  installed_version : String
  required_version : Option String
  deriving DecidableEq

/-- The `package` object of a pipdeptree JSON entry. -/
structure PdtPackage where
  key : String
  package_name : String
  installed_version : String
  deriving DecidableEq

/-- One entry of the pipdeptree `--json` output. -/
structure PdtEntry where
  package : PdtPackage
  dependencies : List PdtDependency
  deriving DecidableEq

/-- Result of one external command execution (`run_command`): return code,
JSON stdout (pipdeptree-shaped, used only by `is_json` invocations), and the
error payload carried by a raised `CommandError`. -/
structure CmdOutcome where
  rc : Int
  stdout_entries : List PdtEntry
  details : String
  deriving DecidableEq

/-- Python exceptions relevant to the source: `CommandError` (the only kind
the traversal catches), `AssertionError` (the solver-contract assert in
`_resolve_versions` and the `python_version` assert), and any other
uncaught exception (for example `NotFound` from hash retrieval). -/
inductive PyErr where
  | commandError (cmd : String) (details : String)
  | assertionError (msg : String)
  | otherError (msg : String)
  deriving DecidableEq

/-- Outcome of `PythonSolver.solve` on one requirement string: the
`NotFound` exception, any other exception, or a name-to-versions mapping. -/
inductive SolveOutcome where
  | notFound
  | failed
  | ok (result : List (String × List String))
  deriving DecidableEq

/-- Result of `PythonDependencyParser.parse_python`: the parsed dependency
(name plus (operator, version) specification pairs) or the text of the
raised exception. -/
structure ParsedDep where
  name : String
  spec : List (String × String)
  deriving DecidableEq

/-- The external collaborators of the core, as pure functions.  `exec` is
keyed by the position of the call in the run so repeated commands may
observe a mutated environment; `solve` is keyed by the solver's index URL;
`getHashes` models `Source.get_package_hashes` (the `sha256` fields). -/
structure Oracle where
  exec : Nat → String → CmdOutcome
  parse : String → Except String ParsedDep
  solve : String → String → SolveOutcome
  getHashes : String → String → String → Except String (List String)

/-- Command-execution state: the index of the next call and the ghost trace
of command strings executed so far. -/
structure ExecState where
  ix : Nat
  trace : List String
  deriving DecidableEq

/-- `run_command`: consult the oracle, advance the call counter, record the
command; raise `CommandError` on a non-zero return code unless
`raise_on_error` is disabled. -/
def runCmd (o : Oracle) (cmd : String) (raiseOnError : Bool) (es : ExecState) :
    (Except PyErr CmdOutcome) × ExecState :=
  let out := o.exec es.ix cmd
  let es' : ExecState := ⟨es.ix + 1, es.trace ++ [cmd]⟩
  if raiseOnError ∧ out.rc ≠ 0 then (.error (.commandError cmd out.details), es')
  else (.ok out, es')

/-- `shlex.quote`: characters that never need quoting. -/
def shlexSafeChar (c : Char) : Bool :=
  c.isAlphanum || c = '_' || c = '@' || c = '%' || c = '+' || c = '=' ||
    c = ':' || c = ',' || c = '.' || c = '/' || c = '-'

/-- `shlex.quote`: return the string unchanged when safe, otherwise wrap in
single quotes, escaping embedded single quotes. -/
def quote (s : String) : String :=
  if s = "" then "''"
  else if s.data.all shlexSafeChar then s
  else "'" ++ (s.replace "'" "'\"'\"'") ++ "'"

/-- Python `str.lower()` (ASCII case folding), character by character. -/
def strLower (s : String) : String :=
  ⟨s.data.map Char.toLower⟩

/-- The pipdeptree invocation string built by `_pipdeptree` and
`_get_environment_details`. -/
def pipdeptreeCommand (pythonBin : String) : String :=
  pythonBin ++ " -m pipdeptree --json"

/-- Execute pipdeptree and return its JSON output (`_pipdeptree` without a
`package_name`, and the command step of `_get_environment_details`). -/
def pipdeptree (o : Oracle) (pythonBin : String) (es : ExecState) :
    (Except PyErr (List PdtEntry)) × ExecState :=
  match runCmd o (pipdeptreeCommand pythonBin) true es with
  | (.error e, es') => (.error e, es')
  | (.ok out, es') => (.ok out.stdout_entries, es')

/-- The `package_name` lookup of `_pipdeptree`: first entry whose package
`key` matches the queried name up to ASCII case, `none` if absent. -/
def pdtFind (output : List PdtEntry) (packageName : String) : Option PdtEntry :=
  output.find? (fun entry => strLower entry.package.key == strLower packageName)

/-- `_get_dependency_specification`: comma-joined `operator ++ version`
pairs. -/
def getDependencySpecification (depSpec : List (String × String)) : String :=
  String.intercalate "," (depSpec.map (fun depRange => depRange.1 ++ depRange.2))

/-- `_resolve_versions`: run the solver on `name ++ spec`; `NotFound` and
any other solver exception yield the empty list; the result must carry
exactly one package key (the `assert`), whose version list is returned. -/
def resolveVersions (o : Oracle) (solverUrl : String) (packageName : String)
    (versionSpec : Option String) : Except PyErr (List String) :=
  match o.solve solverUrl (packageName ++ versionSpec.getD "") with
  | .notFound => .ok []
  | .failed => .ok []
  | .ok result =>
    match result with
    | [(_, versions)] => .ok versions
    | _ => .error (.assertionError "Resolution of one package version ended with multiple packages.")

/-- Normalized dependency record kept by `_create_entry`: the `key` and
`installed_version` fields of the raw pipdeptree dependency are dropped. -/
structure DepOut where
  package_name : String
  required_version : Option String
  deriving DecidableEq

/-- Output of `_create_entry`: package name/version hoisted out of the
`package` object, plus index URL and hashes when a source is given. -/
structure EntryOut where
  package_name : String
  package_version : String
  index_url : Option String
  sha256 : Option (List String)
  dependencies : List DepOut
  deriving DecidableEq

/-- `_create_entry`: filter and normalize one pipdeptree entry; with a
source, attach its URL and the hashes from `get_package_hashes` (whose
exceptions propagate uncaught). -/
def createEntry (o : Oracle) (entry : PdtEntry) (source : Option String) :
    Except PyErr EntryOut :=
  let deps := entry.dependencies.map
    (fun d => DepOut.mk d.package_name d.required_version)
  match source with
  | none =>
    .ok ⟨entry.package.package_name, entry.package.installed_version, none, none, deps⟩
  | some url =>
    match o.getHashes url entry.package.package_name entry.package.installed_version with
    | .error msg => .error (.otherError msg)
    | .ok hashes =>
      .ok ⟨entry.package.package_name, entry.package.installed_version, some url, some hashes, deps⟩

/-- `_get_environment_details`: pipdeptree output normalized entry by
entry, without a source. -/
def getEnvironmentDetails (o : Oracle) (pythonBin : String) (es : ExecState) :
    (Except PyErr (List EntryOut)) × ExecState :=
  match pipdeptree o pythonBin es with
  | (.error e, es') => (.error e, es')
  | (.ok output, es') =>
    match output.mapM (fun entry => createEntry o entry none) with
    | .error e => (.error e, es')
    | .ok entries => (.ok entries, es')

/-- The `pip install` command string built by `_install_requirement`
(version and index URL appended only when present and non-empty, matching
Python truthiness). -/
def installCommand (pythonBin package : String) (version : Option String)
    (indexUrl : Option String) : String :=
  pythonBin ++ " -m pip install --force-reinstall --no-cache-dir --no-deps " ++ quote package
    ++ (match version with
        | some v => if v = "" then "" else "==" ++ quote v
        | none => "")
    ++ (match indexUrl with
        | some u => if u = "" then "" else " --index-url \"" ++ quote u ++ "\" "
        | none => "")

/-- The `with _install_requirement(...):` block of `_do_resolve_index`,
whose body is `_pipdeptree(python_bin, package, warn=True)`.

Mirrors the `@contextmanager` semantics of the source: record the
previously installed version, force-install the requested one, run the
body; because the generator's `yield` is not wrapped in `try/finally`, an
exception raised by the body is re-raised at the `yield` and the
restoration code after it never executes.  When the body returns normally
and `clean` is set, restore: reinstall the previous version if one
existed, otherwise uninstall the package (both with `raise_on_error`
disabled).  The final `Bool` is ghost: whether the restoration step ran. -/
def installAndInspect (o : Oracle) (pythonBin package : String) (version : Option String)
    (indexUrl : Option String) (clean : Bool) (es : ExecState) :
    (Except PyErr (Option PdtEntry)) × ExecState × Bool :=
  match pipdeptree o pythonBin es with
  | (.error e, es1) => (.error e, es1, false)
  | (.ok out0, es1) =>
    let previousVersion := pdtFind out0 package
    match runCmd o (installCommand pythonBin package version indexUrl) true es1 with
    | (.error e, es2) => (.error e, es2, false)
    | (.ok _, es2) =>
      match pipdeptree o pythonBin es2 with
      | (.error e, es3) => (.error e, es3, false)
      | (.ok out1, es3) =>
        let packageInfo := pdtFind out1 package
        if clean then
          match previousVersion with
          | some prev =>
            let restoreCmd := pythonBin ++ " -m pip install --force-reinstall --no-cache-dir --no-deps "
              ++ quote package ++ "==" ++ quote prev.package.installed_version
            match runCmd o restoreCmd false es3 with
            | (_, es4) => (.ok packageInfo, es4, true)
          | none =>
            let restoreCmd := pythonBin ++ " -m pip uninstall --yes " ++ quote package
            match runCmd o restoreCmd false es3 with
            | (_, es4) => (.ok packageInfo, es4, true)
        else (.ok packageInfo, es3, false)

/-- The cross-index resolution record attached to a discovered dependency:
versions satisfying its range at one index. -/
structure IndexVersions where
  versions : List String
  index : String
  deriving DecidableEq

/-- A dependency of a probed package with its cross-index
`resolved_versions`. -/
structure DepResolved where
  package_name : String
  required_version : Option String
  resolved_versions : List IndexVersions
  deriving DecidableEq

/-- A fully assembled element of the pass's `tree`. -/
structure TreeEntry where
  package_name : String
  package_version : String
  index_url : Option String
  sha256 : Option (List String)
  dependencies : List DepResolved
  deriving DecidableEq

/-- An element of the pass's `errors` list (`command_error` or
`not_site_package`). -/
structure ErrorRecord where
  package_name : String
  index : String
  version : String
  type : String
  details : String
  deriving DecidableEq

/-- An element of the pass's `unparsed` list. -/
structure UnparsedRecord where
  requirement : String
  details : String
  deriving DecidableEq

/-- An element of the pass's `unresolved` list. -/
structure UnresolvedRecord where
  package_name : String
  version_spec : String
  index : String
  deriving DecidableEq

/-- The mutable state of one `_do_resolve_index` pass: the visited-set
`seen` (`packages_seen`, with Python-set semantics), the LIFO work `queue`
(list head is the deque's right end: `append` conses, `pop` takes the
head), the accumulators, and the ghost list `probed` of pairs popped from
the queue. -/
structure PassState where
  seen : List (String × String)
  queue : List (String × String)
  tree : List TreeEntry
  errors : List ErrorRecord
  unparsed : List UnparsedRecord
  unresolved : List UnresolvedRecord
  probed : List (String × String)
  deriving DecidableEq

/-- `packages_seen.add`: set insertion (no-op when already present). -/
def insertPair (p : String × String) (s : List (String × String)) : List (String × String) :=
  if p ∈ s then s else p :: s

/-- The transitive-admission loop of `_do_resolve_index`: for each resolved
version, if the (name, version) pair is not in the visited-set, add it to
the visited-set and push it onto the queue. -/
def admitVersions (packageName : String) (versions : List String) (st : PassState) : PassState :=
  versions.foldl
    (fun st version =>
      let seenEntry := (packageName, version)
      if seenEntry ∈ st.seen then st
      else { st with seen := seenEntry :: st.seen, queue := seenEntry :: st.queue })
    st

/-- Cross-resolution of one dependency against every configured solver:
build its `resolved_versions` in solver order and, in transitive mode,
admit every newly discovered version to the traversal state. -/
def resolveDep (o : Oracle) (allSolvers : List String) (transitive : Bool)
    (packageName : String) (range : Option String) (st : PassState) :
    Except PyErr (List IndexVersions × PassState) :=
  match allSolvers with
  | [] => .ok ([], st)
  | depSolver :: rest =>
    match resolveVersions o depSolver packageName range with
    | .error e => .error e
    | .ok versions =>
      let st' := if transitive then admitVersions packageName versions st else st
      match resolveDep o rest transitive packageName range st' with
      | .error e => .error e
      | .ok (restResolved, st'') =>
        .ok (⟨versions, depSolver⟩ :: restResolved, st'')

/-- The dependency loop over one probed entry's dependencies. -/
def resolveDeps (o : Oracle) (allSolvers : List String) (transitive : Bool)
    (deps : List DepOut) (st : PassState) :
    Except PyErr (List DepResolved × PassState) :=
  match deps with
  | [] => .ok ([], st)
  | d :: rest =>
    match resolveDep o allSolvers transitive d.package_name d.required_version st with
    | .error e => .error e
    | .ok (resolved, st') =>
      match resolveDeps o allSolvers transitive rest st' with
      | .error e => .error e
      | .ok (restOut, st'') =>
        .ok (⟨d.package_name, d.required_version, resolved⟩ :: restOut, st'')

/-- The body of one iteration of the drain loop, after the (name, version)
pair has been popped: probe it through the install/inspect/restore scope;
a `CommandError` becomes a `command_error` record, a missing inventory
entry a `not_site_package` record; on success normalize the entry,
cross-resolve its dependencies, and append it to the tree.  Exceptions
other than `CommandError` (hash retrieval, the solver-contract assert)
propagate. -/
def processPackage (o : Oracle) (pythonBin indexUrl : String) (allSolvers : List String)
    (transitive : Bool) (st : PassState) (packageName packageVersion : String)
    (es : ExecState) : (Except PyErr PassState) × ExecState :=
  match installAndInspect o pythonBin packageName (some packageVersion) (some indexUrl) true es with
  | (.error (.commandError _cmd details), es', _) =>
    (.ok { st with errors := st.errors ++
      [⟨packageName, indexUrl, packageVersion, "command_error", details⟩] }, es')
  | (.error e, es', _) => (.error e, es')
  | (.ok none, es', _) =>
    (.ok { st with errors := st.errors ++
      [⟨packageName, indexUrl, packageVersion, "not_site_package",
        "Failed to get information about installed package, probably not site package"⟩] }, es')
  | (.ok (some packageInfo), es', _) =>
    match createEntry o packageInfo (some indexUrl) with
    | .error e => (.error e, es')
    | .ok entry =>
      match resolveDeps o allSolvers transitive entry.dependencies st with
      | .error e => (.error e, es')
      | .ok (deps, st') =>
        (.ok { st' with tree := st'.tree ++
          [⟨entry.package_name, entry.package_version, entry.index_url, entry.sha256, deps⟩] }, es')

/-- The `while queue:` drain loop of `_do_resolve_index`, with explicit
fuel; `none` means the fuel ran out before the queue emptied. -/
def drainLoop (o : Oracle) (pythonBin indexUrl : String) (allSolvers : List String)
    (transitive : Bool) : Nat → PassState → ExecState →
    Option ((Except PyErr PassState) × ExecState)
  | 0, st, es => match st.queue with
    | [] => some (.ok st, es)
    | _ :: _ => none
  | fuel + 1, st, es =>
    match st.queue with
    | [] => some (.ok st, es)
    | (packageName, packageVersion) :: rest =>
      match processPackage o pythonBin indexUrl allSolvers transitive
          { st with queue := rest, probed := st.probed ++ [(packageName, packageVersion)] }
          packageName packageVersion es with
      | (.error e, es') => some (.error e, es')
      | (.ok st', es') => drainLoop o pythonBin indexUrl allSolvers transitive fuel st' es'

/-- One iteration of the seed loop of `_do_resolve_index`: parse the raw
requirement (recording a parse failure), skip excluded names, resolve
against the pass's own index, and either record an unresolved requirement
or add every resolved version to the visited-set and the queue
(unconditionally). -/
def seedStep (o : Oracle) (indexUrl : String) (excludePackages : List String)
    (st : PassState) (requirement : String) : Except PyErr PassState :=
  match o.parse requirement with
  | .error details => .ok { st with unparsed := st.unparsed ++ [⟨requirement, details⟩] }
  | .ok dependency =>
    if dependency.name ∈ excludePackages then .ok st
    else
      let versionSpec := getDependencySpecification dependency.spec
      match resolveVersions o indexUrl dependency.name (some versionSpec) with
      | .error e => .error e
      | .ok resolvedVersions =>
        if resolvedVersions.isEmpty then
          .ok { st with unresolved := st.unresolved ++ [⟨dependency.name, versionSpec, indexUrl⟩] }
        else
          .ok (resolvedVersions.foldl
            (fun st version =>
              { st with seen := insertPair (dependency.name, version) st.seen,
                        queue := (dependency.name, version) :: st.queue })
            st)

/-- The seed loop over all raw requirement strings. -/
def seedPhase (o : Oracle) (indexUrl : String) (excludePackages : List String)
    (requirements : List String) (st : PassState) : Except PyErr PassState :=
  match requirements with
  | [] => .ok st
  | requirement :: rest =>
    match seedStep o indexUrl excludePackages st requirement with
    | .error e => .error e
    | .ok st' => seedPhase o indexUrl excludePackages rest st'

/-- The python binary path selected by `_do_resolve_index` after the
virtualenv is created. -/
def pythonBinFor (pythonVersion : Nat) : String :=
  "venv/bin/" ++ (if pythonVersion = 3 then "python3" else "python2")

/-- The result of one pass, with the state after the seed loop and the
final state kept for observation alongside the environment baseline. -/
structure PassOut where
  seed : PassState
  final : PassState
  environment : List EntryOut
  deriving DecidableEq

/-- The empty traversal state every pass starts from. -/
def initialPassState : PassState := ⟨[], [], [], [], [], [], []⟩

/-- `_do_resolve_index`: create the virtualenv (always with
`virtualenv -p python3 venv`), install pipdeptree through the selected
python binary, run the seed loop, capture the environment baseline, and
drain the queue.  The outer `Option` is fuel exhaustion of the drain loop;
the `Except` carries any exception the source lets propagate. -/
def doResolveIndexFrom (o : Oracle) (solverUrl : String) (allSolvers : List String)
    (requirements : List String) (pythonVersion : Nat) (excludePackages : List String)
    (transitive : Bool) (fuel : Nat) (es : ExecState) :
    Option ((Except PyErr PassOut) × ExecState) :=
  let indexUrl := solverUrl
  match runCmd o "virtualenv -p python3 venv" true es with
  | (.error e, es1) => some (.error e, es1)
  | (.ok _, es1) =>
    let pythonBin := pythonBinFor pythonVersion
    match runCmd o (pythonBin ++ " -m pip install pipdeptree") true es1 with
    | (.error e, es2) => some (.error e, es2)
    | (.ok _, es2) =>
      match seedPhase o indexUrl excludePackages requirements initialPassState with
      | .error e => some (.error e, es2)
      | .ok seedState =>
        match getEnvironmentDetails o pythonBin es2 with
        | (.error e, es3) => some (.error e, es3)
        | (.ok environmentDetails, es3) =>
          match drainLoop o pythonBin indexUrl allSolvers transitive fuel seedState es3 with
          | none => none
          | some (.error e, es4) => some (.error e, es4)
          | some (.ok finalState, es4) =>
            some (.ok ⟨seedState, finalState, environmentDetails⟩, es4)

/-- The dictionary returned by `_do_resolve_index`. -/
structure PassResult where
  tree : List TreeEntry
  errors : List ErrorRecord
  unparsed : List UnparsedRecord
  unresolved : List UnresolvedRecord
  environment : List EntryOut
  deriving DecidableEq

/-- Project the observable `_do_resolve_index` dictionary out of a pass. -/
def passResultOf (p : PassOut) : PassResult :=
  ⟨p.final.tree, p.final.errors, p.final.unparsed, p.final.unresolved, p.environment⟩

/-- The pass-per-index loop of `resolve`, threading command execution
state across passes. -/
def runPasses (o : Oracle) (solvers allSolvers : List String) (requirements : List String)
    (pythonVersion : Nat) (excludePackages : List String) (transitive : Bool) (fuel : Nat)
    (es : ExecState) : Option ((Except PyErr (List PassResult)) × ExecState) :=
  match solvers with
  | [] => some (.ok [], es)
  | solverUrl :: rest =>
    match doResolveIndexFrom o solverUrl allSolvers requirements pythonVersion
        excludePackages transitive fuel es with
    | none => none
    | some (.error e, es') => some (.error e, es')
    | some (.ok p, es') =>
      match runPasses o rest allSolvers requirements pythonVersion excludePackages
          transitive fuel es' with
      | none => none
      | some (.error e, es'') => some (.error e, es'')
      | some (.ok results, es'') => some (.ok (passResultOf p :: results), es'')

/-- `resolve`: assert the python version is 2 or 3, build one solver per
index URL, and run one pass per solver in order. -/
def resolve (o : Oracle) (requirements : List String) (indexUrls : List String)
    (pythonVersion : Nat) (excludePackages : List String) (transitive : Bool)
    (fuel : Nat) : Option (Except PyErr (List PassResult)) :=
  if pythonVersion = 2 ∨ pythonVersion = 3 then
    match runPasses o indexUrls indexUrls requirements pythonVersion excludePackages
        transitive fuel ⟨0, []⟩ with
    | none => none
    | some (r, _) => some r
  else some (.error (.assertionError "Unknown Python version"))

/-- Projection used by concrete runs: the ghost probed list of a completed
pass, empty when the pass did not complete normally. -/
def probedOf (r : Option ((Except PyErr PassOut) × ExecState)) : List (String × String) :=
  match r with
  | some (.ok p, _) => p.final.probed
  | _ => []

/-- An environment in which every command succeeds with empty pipdeptree
output, every requirement string parses to a bare name, and every solver
resolves exactly the version 1.0. -/
def allOkOracle : Oracle :=
  { exec := fun _ _ => ⟨0, [], ""⟩,
    parse := fun s => .ok ⟨s, []⟩,
    solve := fun _ s => .ok [(s, ["1.0"])],
    getHashes := fun _ _ _ => .ok [] }

/-- An environment whose very first command (the virtualenv creation)
exits non-zero; everything afterwards would succeed. -/
def venvFailOracle : Oracle :=
  { exec := fun ix _ => if ix = 0 then ⟨1, [], "venv failed"⟩ else ⟨0, [], ""⟩,
    parse := fun s => .ok ⟨s, []⟩,
    solve := fun _ s => .ok [(s, ["1.0"])],
    getHashes := fun _ _ _ => .ok [] }

/-- An environment for a standalone probe in which the pre-install
inventory query (call 0) and the installation (call 1) succeed but the
post-install inventory query (call 2) exits non-zero. -/
def inspectFailOracle : Oracle :=
  { exec := fun ix _ => if ix = 2 then ⟨1, [], "boom"⟩ else ⟨0, [], ""⟩,
    parse := fun s => .ok ⟨s, []⟩,
    solve := fun _ _ => .notFound,
    getHashes := fun _ _ _ => .ok [] }

/-- A pipdeptree entry for package foo 1.0 declaring one dependency on
bar. -/
def fooEntry : PdtEntry :=
  ⟨⟨"foo", "foo", "1.0"⟩, [⟨"bar", "bar", "0.9", some ">=0.1"⟩]⟩

/-- An environment in which every inventory query reports exactly
`fooEntry`, so probing foo succeeds and discovers the dependency bar. -/
def depOracle : Oracle :=
  { exec := fun _ _ => ⟨0, [fooEntry], ""⟩,
    parse := fun s => .ok ⟨s, []⟩,
    solve := fun _ s => .ok [(s, ["1.0"])],
    getHashes := fun _ _ _ => .ok ["h"] }

/-- An environment in which every requirement string fails to parse while
all commands succeed and every range resolves to nothing. -/
def unparsedOracle : Oracle :=
  { exec := fun _ _ => ⟨0, [], ""⟩,
    parse := fun _ => .error "bad requirement",
    solve := fun _ _ => .notFound,
    getHashes := fun _ _ _ => .ok [] }

/-- The pass produced by resolving the single seed foo against index i in
the `depOracle` environment without transitive expansion: foo 1.0 is
probed, its entry lands in the tree with the dependency bar cross-resolved
against the one configured index. -/
def depRunPass : PassOut :=
  { seed := { seen := [("foo", "1.0")], queue := [("foo", "1.0")], tree := [],
              errors := [], unparsed := [], unresolved := [], probed := [] },
    final := { seen := [("foo", "1.0")], queue := [],
               tree := [{ package_name := "foo", package_version := "1.0",
                          index_url := some "i", sha256 := some ["h"],
                          dependencies := [{ package_name := "bar",
                                             required_version := some ">=0.1",
                                             resolved_versions := [⟨["1.0"], "i"⟩] }] }],
               errors := [], unparsed := [], unresolved := [],
               probed := [("foo", "1.0")] },
    environment := [{ package_name := "foo", package_version := "1.0",
                      index_url := none, sha256 := none,
                      dependencies := [{ package_name := "bar",
                                         required_version := some ">=0.1" }] }] }

/-- An environment in which only the first three commands of a pass — the
virtualenv creation, the pipdeptree installation and the baseline
inventory capture — succeed; every later command, probe commands
included, exits non-zero. -/
def probeFailOracle : Oracle :=
  { exec := fun ix _ => if ix ≤ 2 then ⟨0, [], ""⟩ else ⟨1, [], "probe failed"⟩,
    parse := fun s => .ok ⟨s, []⟩,
    solve := fun _ s => .ok [(s, ["1.0"])],
    getHashes := fun _ _ _ => .ok [] }

/-- The pass produced by resolving the single seed foo against index i in
the `probeFailOracle` environment: the probe of foo 1.0 fails at its
pre-install inventory query, the resulting `CommandError` is recorded as
a command_error entry and the pass still completes. -/
def probeFailPass : PassOut :=
  { seed := { seen := [("foo", "1.0")], queue := [("foo", "1.0")], tree := [],
              errors := [], unparsed := [], unresolved := [], probed := [] },
    final := { seen := [("foo", "1.0")], queue := [], tree := [],
               errors := [{ package_name := "foo", index := "i", version := "1.0",
                            type := "command_error", details := "probe failed" }],
               unparsed := [], unresolved := [], probed := [("foo", "1.0")] },
    environment := [] }

/-- The execution state after that pass: setup, baseline capture, and the
probe's failed pre-install inventory query. -/
def probeFailES : ExecState :=
  ⟨4, ["virtualenv -p python3 venv", "venv/bin/python3 -m pip install pipdeptree",
       "venv/bin/python3 -m pipdeptree --json", "venv/bin/python3 -m pipdeptree --json"]⟩

/-- Between two execution states, only commands running through the given
python binary were issued. -/
def TraceBinPrefixed (pythonBin : String) (es es' : ExecState) : Prop :=
  ∃ cs, es'.trace = es.trace ++ cs ∧ ∀ c ∈ cs, ∃ s, c = pythonBin ++ s

/-- The traversal state `st'` extends `st` by admitting exactly the pairs
of `L` (most recently admitted first) to both the visited-set and the
queue; every admitted pair was absent from the visited-set, no pair is
admitted twice, and every other field is unchanged. -/
def FreshExtension (st st' : PassState) (L : List (String × String)) : Prop :=
  st' = { st with seen := L ++ st.seen, queue := L ++ st.queue }
  ∧ (∀ p ∈ L, p ∉ st.seen) ∧ L.Nodup

/-- Count invariant of the drain loop: a pair outside the visited-set has
never been queued or probed, and no pair is handled more often than the
larger of one and its multiplicity in the seed queue. -/
def ProbeInv (seedQueue : List (String × String)) (st : PassState) : Prop :=
  ∀ p : String × String,
    (p ∉ st.seen → st.probed.count p + st.queue.count p = 0)
    ∧ st.probed.count p + st.queue.count p ≤ max 1 (seedQueue.count p)

/-- C1 (code bug).  When the force-install of foo 1.0 succeeds (calls 0
and 1 exit zero) but the inventory inspection between install and restore
raises a `CommandError` (call 2, the pipdeptree query, exits non-zero),
the probe re-raises the inspection error and the restoration step never
runs (ghost flag `false`): the `yield` of the `_install_requirement`
context manager is not wrapped in `try/finally`, so the code after it is
skipped on the exception path.  On the same probe with all commands
succeeding, restoration does run.  This contradicts the documented
guarantee that restoration executes on every exit path after a successful
install. -/
theorem c1_restoration_skipped_when_inspection_fails :
    (installAndInspect inspectFailOracle "venv/bin/python3" "foo" (some "1.0") (some "i") true
        ⟨0, []⟩).1
      = .error (.commandError (pipdeptreeCommand "venv/bin/python3") "boom")
    ∧ (installAndInspect inspectFailOracle "venv/bin/python3" "foo" (some "1.0") (some "i") true
        ⟨0, []⟩).2.2 = false
    ∧ (installAndInspect allOkOracle "venv/bin/python3" "foo" (some "1.0") (some "i") true
        ⟨0, []⟩).2.2 = true :=
  ⟨rfl, rfl, rfl⟩

/-- C2 (counterexample).  Two seed requirements that both resolve to
foo 1.0: the seed loop pushes the pair onto the queue twice without
consulting the visited-set, so the pair is popped and probed twice within
one pass. -/
theorem c2_counterexample_duplicate_seed_probed_twice :
    probedOf (doResolveIndexFrom allOkOracle "i" ["i"] ["foo", "foo"] 3 [] true 5 ⟨0, []⟩)
      = [("foo", "1.0"), ("foo", "1.0")] :=
  rfl

/-- C3 (counterexample).  With a well-formed `python_version` of 3, a
failure of the environment-setup command `virtualenv -p python3 venv`
propagates out of `resolve` as a `CommandError` instead of being captured
inside a `PassResult`. -/
theorem c3_counterexample_setup_failure_aborts :
    resolve venvFailOracle ["foo"] ["i"] 3 [] true 5
      = some (.error (.commandError "virtualenv -p python3 venv" "venv failed")) :=
  rfl

/-- C6 (counterexample).  Seeds Foo and foo both resolve to version 1.0;
the two pairs differ only in the letter case of the name, yet both are
admitted to the queue and probed in one pass: the visited-set key is
case-sensitive. -/
theorem c6_counterexample_case_variants_both_probed :
    probedOf (doResolveIndexFrom allOkOracle "i" ["i"] ["Foo", "foo"] 3 [] true 5 ⟨0, []⟩)
        = [("foo", "1.0"), ("Foo", "1.0")]
      ∧ strLower "Foo" = strLower "foo" :=
  ⟨rfl, rfl⟩

lemma seedStep_exclude_irrelevant (o : Oracle) (indexUrl : String)
    (excludePackages : List String) (st : PassState) (requirement : String)
    (h : ∀ dep, o.parse requirement = .ok dep → dep.name ∉ excludePackages) :
    seedStep o indexUrl excludePackages st requirement
      = seedStep o indexUrl [] st requirement := by
  unfold seedStep
  cases hp : o.parse requirement with
  | error details => rfl
  | ok dep =>
    have hne : dep.name ∉ excludePackages := h dep hp
    simp [hne]

lemma seedPhase_exclude_irrelevant (o : Oracle) (indexUrl : String)
    (excludePackages : List String) (requirements : List String)
    (h : ∀ req ∈ requirements, ∀ dep, o.parse req = .ok dep → dep.name ∉ excludePackages) :
    ∀ st, seedPhase o indexUrl excludePackages requirements st
      = seedPhase o indexUrl [] requirements st := by
  induction requirements with
  | nil => intro st; rfl
  | cons r rest ih =>
    intro st
    unfold seedPhase
    rw [seedStep_exclude_irrelevant o indexUrl excludePackages st r
      (h r (List.mem_cons_self r rest))]
    cases hs : seedStep o indexUrl [] st r with
    | error e => rfl
    | ok st' =>
      exact ih (fun req hm dep hp => h req (List.mem_cons_of_mem r hm) dep hp) st'

/-- C9 (confirmed).  Seed-stage exclusion matches names by exact string
equality: a requirement whose parsed name is not literally in
`exclude_packages` — even when it differs only in letter case from an
entry of it — is processed exactly as it would be with no exclusions at
all (resolved, recorded, enqueued). -/
theorem c9_seed_exclusion_case_sensitive (o : Oracle) (indexUrl : String)
    (excludePackages : List String) (st : PassState) (requirement : String) (dep : ParsedDep)
    (hparse : o.parse requirement = .ok dep)
    (hmem : dep.name ∉ excludePackages)
    (_hcase : ∃ m ∈ excludePackages, strLower m = strLower dep.name ∧ m ≠ dep.name) :
    seedStep o indexUrl excludePackages st requirement
      = seedStep o indexUrl [] st requirement := by
  refine seedStep_exclude_irrelevant o indexUrl excludePackages st requirement ?_
  intro dep' hp'
  rw [hparse] at hp'
  cases hp'
  exact hmem

/-- C9 witness: the exclusion set contains Foo and the seed requirement
parses to foo. -/
theorem c9_seed_exclusion_case_sensitive_witness :
    seedStep allOkOracle "i" ["Foo"] initialPassState "foo"
      = seedStep allOkOracle "i" [] initialPassState "foo" :=
  c9_seed_exclusion_case_sensitive allOkOracle "i" ["Foo"] initialPassState "foo"
    ⟨"foo", []⟩ rfl (by decide)
    ⟨"Foo", by decide, by decide, by decide⟩

/-- C6 (amended, confirmed).  Case folding of package names happens only
in the pipdeptree inventory lookup, which cannot distinguish names equal
up to ASCII case; the traversal's visited-set is case-sensitive: a
(name, version) pair absent from the visited-set is admitted to the
visited-set and the queue even when a pair differing only in the name's
letter case is already present. -/
theorem c6_case_folding_only_in_inventory_lookup :
    (∀ output n₁ n₂, strLower n₁ = strLower n₂ → pdtFind output n₁ = pdtFind output n₂)
    ∧ (∀ (st : PassState) (name version m : String),
        (name, version) ∉ st.seen → strLower m = strLower name → (m, version) ∈ st.seen →
        admitVersions name [version] st
          = { st with seen := (name, version) :: st.seen,
                      queue := (name, version) :: st.queue }) := by
  constructor
  · intro output n₁ n₂ h
    unfold pdtFind
    have hpred : (fun entry : PdtEntry => strLower entry.package.key == strLower n₁)
        = (fun entry : PdtEntry => strLower entry.package.key == strLower n₂) := by
      funext entry
      rw [h]
    rw [hpred]
  · intro st name version m hnot _hlower _hmem
    unfold admitVersions
    simp [hnot]

/-- C6 amended witness: the inventory lookup finds foo's entry under the
query FOO, and the visited-set containing (FOO, 1.0) does not block
admission of (foo, 1.0). -/
theorem c6_case_folding_only_in_inventory_lookup_witness :
    pdtFind [fooEntry] "FOO" = pdtFind [fooEntry] "foo"
    ∧ admitVersions "foo" ["1.0"] ⟨[("FOO", "1.0")], [], [], [], [], [], []⟩
      = ⟨[("foo", "1.0"), ("FOO", "1.0")], [("foo", "1.0")], [], [], [], [], []⟩ :=
  ⟨c6_case_folding_only_in_inventory_lookup.1 [fooEntry] "FOO" "foo" (by decide),
   c6_case_folding_only_in_inventory_lookup.2 ⟨[("FOO", "1.0")], [], [], [], [], [], []⟩
     "foo" "1.0" "FOO" (by decide) (by decide) (by decide)⟩

/-- C8 (confirmed).  The exclusion set is consulted only in the seed loop:
as long as no seed requirement parses to an excluded name, the entire pass
— including which transitively discovered packages are enqueued, probed
and given their own tree entries — is identical to a run with an empty
exclusion set, for any exclusion set and any packages it contains. -/
theorem c8_exclusion_checked_only_at_seed (o : Oracle) (solverUrl : String)
    (allSolvers : List String) (requirements : List String) (pythonVersion : Nat)
    (excludePackages : List String) (transitive : Bool) (fuel : Nat) (es : ExecState)
    (h : ∀ req ∈ requirements, ∀ dep, o.parse req = .ok dep → dep.name ∉ excludePackages) :
    doResolveIndexFrom o solverUrl allSolvers requirements pythonVersion excludePackages
        transitive fuel es
      = doResolveIndexFrom o solverUrl allSolvers requirements pythonVersion []
        transitive fuel es := by
  unfold doResolveIndexFrom
  simp only [seedPhase_exclude_irrelevant o solverUrl excludePackages requirements h]

/-- C8 witness: the pass excluding bar, whose seed foo transitively
discovers bar, equals the pass with no exclusions, in which bar is probed
and receives its own tree entry. -/
theorem c8_exclusion_checked_only_at_seed_witness :
    doResolveIndexFrom depOracle "i" ["i"] ["foo"] 3 ["bar"] true 9 ⟨0, []⟩
      = doResolveIndexFrom depOracle "i" ["i"] ["foo"] 3 [] true 9 ⟨0, []⟩ :=
  c8_exclusion_checked_only_at_seed depOracle "i" ["i"] ["foo"] 3 ["bar"] true 9 ⟨0, []⟩
    (fun req hm dep hp => by
      rw [List.mem_singleton] at hm
      subst hm
      have h2 : (Except.ok ⟨"foo", []⟩ : Except String ParsedDep) = .ok dep := hp
      cases h2
      decide)

lemma runPasses_length_and_align (o : Oracle) (allSolvers requirements : List String)
    (pythonVersion : Nat) (excludePackages : List String) (transitive : Bool) (fuel : Nat) :
    ∀ (solvers : List String) (es : ExecState) (results : List PassResult) (es'' : ExecState),
      runPasses o solvers allSolvers requirements pythonVersion excludePackages transitive fuel es
        = some (.ok results, es'') →
      results.length = solvers.length ∧
      ∀ i (hi : i < results.length) (hi' : i < solvers.length),
        ∃ es0 es1 p,
          doResolveIndexFrom o (solvers.get ⟨i, hi'⟩) allSolvers requirements pythonVersion
            excludePackages transitive fuel es0 = some (.ok p, es1)
          ∧ results.get ⟨i, hi⟩ = passResultOf p := by
  intro solvers
  induction solvers with
  | nil =>
    intro es results es'' h
    simp only [runPasses, Option.some.injEq, Prod.mk.injEq, Except.ok.injEq] at h
    obtain ⟨h1, _⟩ := h
    subst h1
    refine ⟨rfl, ?_⟩
    intro i hi _
    simp at hi
  | cons s rest ih =>
    intro es results es'' h
    simp only [runPasses] at h
    cases hd : doResolveIndexFrom o s allSolvers requirements pythonVersion excludePackages
        transitive fuel es with
    | none => simp only [hd] at h; exact Option.noConfusion h
    | some pr =>
      obtain ⟨r1, es1⟩ := pr
      cases r1 with
      | error e => simp only [hd] at h; simp at h
      | ok p =>
        simp only [hd] at h
        cases hr : runPasses o rest allSolvers requirements pythonVersion excludePackages
            transitive fuel es1 with
        | none => simp only [hr] at h; exact Option.noConfusion h
        | some pr2 =>
          obtain ⟨r2, es2⟩ := pr2
          cases r2 with
          | error e => simp only [hr] at h; simp at h
          | ok results2 =>
            simp only [hr, Option.some.injEq, Prod.mk.injEq, Except.ok.injEq] at h
            obtain ⟨h1, _⟩ := h
            subst h1
            obtain ⟨hlen, halign⟩ := ih es1 results2 es2 hr
            refine ⟨by simp [hlen], ?_⟩
            intro i hi hi'
            cases i with
            | zero => exact ⟨es, es1, p, hd, rfl⟩
            | succ n =>
              obtain ⟨es0, es3, q, hq, hres⟩ :=
                halign n (by simpa using hi) (by simpa using hi')
              exact ⟨es0, es3, q, hq, hres⟩

/-- C4 (confirmed).  Whenever `resolve` returns a result list, it has
exactly one `PassResult` per entry of `index_urls`, and the i-th
`PassResult` is the output of a `_do_resolve_index` pass whose
installation index is the i-th URL (with all of `index_urls` available
for cross-resolution). -/
theorem c4_one_pass_result_per_index (o : Oracle) (requirements indexUrls : List String)
    (pythonVersion : Nat) (excludePackages : List String) (transitive : Bool) (fuel : Nat)
    (results : List PassResult)
    (h : resolve o requirements indexUrls pythonVersion excludePackages transitive fuel
        = some (.ok results)) :
    results.length = indexUrls.length ∧
    ∀ i (hi : i < results.length) (hi' : i < indexUrls.length),
      ∃ es es' p,
        doResolveIndexFrom o (indexUrls.get ⟨i, hi'⟩) indexUrls requirements pythonVersion
          excludePackages transitive fuel es = some (.ok p, es')
        ∧ results.get ⟨i, hi⟩ = passResultOf p := by
  unfold resolve at h
  split at h
  · cases hr : runPasses o indexUrls indexUrls requirements pythonVersion excludePackages
        transitive fuel ⟨0, []⟩ with
    | none => rw [hr] at h; simp at h
    | some pr =>
      obtain ⟨r, es''⟩ := pr
      rw [hr] at h
      simp only [Option.some.injEq] at h
      subst h
      exact runPasses_length_and_align o indexUrls requirements pythonVersion excludePackages
        transitive fuel indexUrls ⟨0, []⟩ results es'' hr
  · simp at h

/-- C4 witness: a run over one index URL returns exactly one
`PassResult`, aligned with that single URL. -/
theorem c4_one_pass_result_per_index_witness :
    ([(⟨[], [], [], [], []⟩ : PassResult)]).length = (["i"]).length ∧
    ∀ i (hi : i < ([(⟨[], [], [], [], []⟩ : PassResult)]).length) (hi' : i < (["i"]).length),
      ∃ es es' p,
        doResolveIndexFrom allOkOracle ((["i"]).get ⟨i, hi'⟩) ["i"] [] 3 [] true 0 es
          = some (.ok p, es')
        ∧ ([(⟨[], [], [], [], []⟩ : PassResult)]).get ⟨i, hi⟩ = passResultOf p :=
  c4_one_pass_result_per_index allOkOracle [] ["i"] 3 [] true 0
    [⟨[], [], [], [], []⟩] rfl

lemma freshExtension_refl (st : PassState) : FreshExtension st st [] :=
  ⟨rfl, by simp, List.nodup_nil⟩

lemma freshExtension_trans (st₁ st₂ st₃ : PassState) (L₁ L₂ : List (String × String))
    (h₁ : FreshExtension st₁ st₂ L₁) (h₂ : FreshExtension st₂ st₃ L₂) :
    FreshExtension st₁ st₃ (L₂ ++ L₁) := by
  obtain ⟨e₁, f₁, n₁⟩ := h₁
  obtain ⟨e₂, f₂, n₂⟩ := h₂
  subst e₁
  subst e₂
  refine ⟨by simp, ?_, ?_⟩
  · intro p hp hmem
    rcases List.mem_append.mp hp with h | h
    · exact f₂ p h (List.mem_append.mpr (Or.inr hmem))
    · exact f₁ p h hmem
  · exact n₂.append n₁ (fun p hp₂ hp₁ => f₂ p hp₂ (List.mem_append.mpr (Or.inl hp₁)))

lemma admitVersions_freshExtension (n : String) :
    ∀ (vs : List String) (st : PassState),
      ∃ L, FreshExtension st (admitVersions n vs st) L := by
  intro vs
  induction vs with
  | nil => intro st; exact ⟨[], freshExtension_refl st⟩
  | cons v rest ih =>
    intro st
    have heq : admitVersions n (v :: rest) st
        = admitVersions n rest (if (n, v) ∈ st.seen then st
          else { st with seen := (n, v) :: st.seen, queue := (n, v) :: st.queue }) := by
      simp only [admitVersions, List.foldl_cons]
    have hstep : FreshExtension st
        (if (n, v) ∈ st.seen then st
          else { st with seen := (n, v) :: st.seen, queue := (n, v) :: st.queue })
        (if (n, v) ∈ st.seen then [] else [(n, v)]) := by
      by_cases hv : (n, v) ∈ st.seen
      · rw [if_pos hv, if_pos hv]
        exact freshExtension_refl st
      · rw [if_neg hv, if_neg hv]
        exact ⟨rfl, by simpa using hv, by simp⟩
    obtain ⟨L, hL⟩ := ih (if (n, v) ∈ st.seen then st
      else { st with seen := (n, v) :: st.seen, queue := (n, v) :: st.queue })
    rw [heq]
    exact ⟨L ++ (if (n, v) ∈ st.seen then [] else [(n, v)]),
      freshExtension_trans _ _ _ _ _ hstep hL⟩

lemma resolveDep_freshExtension (o : Oracle) (transitive : Bool)
    (packageName : String) (range : Option String) :
    ∀ (allSolvers : List String) (st : PassState) rv st',
      resolveDep o allSolvers transitive packageName range st = .ok (rv, st') →
      ∃ L, FreshExtension st st' L := by
  intro allSolvers
  induction allSolvers with
  | nil =>
    intro st rv st' h
    simp only [resolveDep, Except.ok.injEq, Prod.mk.injEq] at h
    obtain ⟨-, h2⟩ := h
    subst h2
    exact ⟨[], freshExtension_refl st⟩
  | cons s rest ih =>
    intro st rv st' h
    simp only [resolveDep] at h
    cases hrv : resolveVersions o s packageName range with
    | error e => simp only [hrv] at h; exact Except.noConfusion h
    | ok versions =>
      simp only [hrv] at h
      cases hrec : resolveDep o rest transitive packageName range
          (if transitive then admitVersions packageName versions st else st) with
      | error e => simp only [hrec] at h; exact Except.noConfusion h
      | ok pr =>
        obtain ⟨rv₂, st₂⟩ := pr
        simp only [hrec, Except.ok.injEq, Prod.mk.injEq] at h
        obtain ⟨-, h2⟩ := h
        subst h2
        obtain ⟨L₂, hL₂⟩ := ih _ rv₂ st₂ hrec
        cases transitive with
        | false => exact ⟨L₂, by simpa using hL₂⟩
        | true =>
          obtain ⟨L₁, hL₁⟩ := admitVersions_freshExtension packageName versions st
          exact ⟨L₂ ++ L₁, freshExtension_trans _ _ _ _ _ hL₁ (by simpa using hL₂)⟩

lemma resolveDeps_freshExtension (o : Oracle) (allSolvers : List String) (transitive : Bool) :
    ∀ (deps : List DepOut) (st : PassState) out st',
      resolveDeps o allSolvers transitive deps st = .ok (out, st') →
      ∃ L, FreshExtension st st' L := by
  intro deps
  induction deps with
  | nil =>
    intro st out st' h
    simp only [resolveDeps, Except.ok.injEq, Prod.mk.injEq] at h
    obtain ⟨-, h2⟩ := h
    subst h2
    exact ⟨[], freshExtension_refl st⟩
  | cons d rest ih =>
    intro st out st' h
    simp only [resolveDeps] at h
    cases hd : resolveDep o allSolvers transitive d.package_name d.required_version st with
    | error e => simp only [hd] at h; exact Except.noConfusion h
    | ok pr =>
      obtain ⟨resolved, st₁⟩ := pr
      simp only [hd] at h
      cases hrest : resolveDeps o allSolvers transitive rest st₁ with
      | error e => simp only [hrest] at h; exact Except.noConfusion h
      | ok pr2 =>
        obtain ⟨restOut, st₂⟩ := pr2
        simp only [hrest, Except.ok.injEq, Prod.mk.injEq] at h
        obtain ⟨-, h2⟩ := h
        subst h2
        obtain ⟨L₁, hL₁⟩ :=
          resolveDep_freshExtension o transitive d.package_name d.required_version
            allSolvers st resolved st₁ hd
        obtain ⟨L₂, hL₂⟩ := ih st₁ restOut st₂ hrest
        exact ⟨L₂ ++ L₁, freshExtension_trans _ _ _ _ _ hL₁ hL₂⟩

lemma resolveDep_index_align (o : Oracle) (transitive : Bool)
    (packageName : String) (range : Option String) :
    ∀ (allSolvers : List String) (st : PassState) rv st',
      resolveDep o allSolvers transitive packageName range st = .ok (rv, st') →
      rv.map IndexVersions.index = allSolvers := by
  intro allSolvers
  induction allSolvers with
  | nil =>
    intro st rv st' h
    simp only [resolveDep, Except.ok.injEq, Prod.mk.injEq] at h
    obtain ⟨h1, -⟩ := h
    subst h1
    rfl
  | cons s rest ih =>
    intro st rv st' h
    simp only [resolveDep] at h
    cases hrv : resolveVersions o s packageName range with
    | error e => simp only [hrv] at h; exact Except.noConfusion h
    | ok versions =>
      simp only [hrv] at h
      cases hrec : resolveDep o rest transitive packageName range
          (if transitive then admitVersions packageName versions st else st) with
      | error e => simp only [hrec] at h; exact Except.noConfusion h
      | ok pr =>
        obtain ⟨rv₂, st₂⟩ := pr
        simp only [hrec, Except.ok.injEq, Prod.mk.injEq] at h
        obtain ⟨h1, -⟩ := h
        subst h1
        simpa using ih _ rv₂ st₂ hrec

lemma resolveDeps_index_align (o : Oracle) (allSolvers : List String) (transitive : Bool) :
    ∀ (deps : List DepOut) (st : PassState) out st',
      resolveDeps o allSolvers transitive deps st = .ok (out, st') →
      ∀ d ∈ out, d.resolved_versions.map IndexVersions.index = allSolvers := by
  intro deps
  induction deps with
  | nil =>
    intro st out st' h
    simp only [resolveDeps, Except.ok.injEq, Prod.mk.injEq] at h
    obtain ⟨h1, -⟩ := h
    subst h1
    intro d hd
    simp at hd
  | cons d rest ih =>
    intro st out st' h
    simp only [resolveDeps] at h
    cases hd : resolveDep o allSolvers transitive d.package_name d.required_version st with
    | error e => simp only [hd] at h; exact Except.noConfusion h
    | ok pr =>
      obtain ⟨resolved, st₁⟩ := pr
      simp only [hd] at h
      cases hrest : resolveDeps o allSolvers transitive rest st₁ with
      | error e => simp only [hrest] at h; exact Except.noConfusion h
      | ok pr2 =>
        obtain ⟨restOut, st₂⟩ := pr2
        simp only [hrest, Except.ok.injEq, Prod.mk.injEq] at h
        obtain ⟨h1, -⟩ := h
        subst h1
        intro d' hd'
        rcases List.mem_cons.mp hd' with h | h
        · subst h
          exact resolveDep_index_align o transitive d.package_name d.required_version
            allSolvers st resolved st₁ hd
        · exact ih st₁ restOut st₂ hrest d' h

lemma seedFold_only_sq (name : String) :
    ∀ (vs : List String) (st : PassState),
      ∃ sn q,
        vs.foldl (fun st version =>
          { st with seen := insertPair (name, version) st.seen,
                    queue := (name, version) :: st.queue }) st
          = { st with seen := sn, queue := q } := by
  intro vs
  induction vs with
  | nil => intro st; exact ⟨st.seen, st.queue, rfl⟩
  | cons v rest ih =>
    intro st
    obtain ⟨sn, q, hrec⟩ :=
      ih { st with seen := insertPair (name, v) st.seen, queue := (name, v) :: st.queue }
    exact ⟨sn, q, hrec⟩

lemma seedStep_only_sq (o : Oracle) (indexUrl : String) (excludePackages : List String)
    (st : PassState) (requirement : String) (st' : PassState)
    (h : seedStep o indexUrl excludePackages st requirement = .ok st') :
    st'.tree = st.tree ∧ st'.errors = st.errors ∧ st'.probed = st.probed := by
  unfold seedStep at h
  cases hp : o.parse requirement with
  | error details =>
    simp only [hp] at h
    cases h
    exact ⟨rfl, rfl, rfl⟩
  | ok dep =>
    simp only [hp] at h
    by_cases hmem : dep.name ∈ excludePackages
    · rw [if_pos hmem] at h
      cases h
      exact ⟨rfl, rfl, rfl⟩
    · rw [if_neg hmem] at h
      cases hrv : resolveVersions o indexUrl dep.name
          (some (getDependencySpecification dep.spec)) with
      | error e =>
        simp only [hrv] at h
        exact Except.noConfusion h
      | ok rvs =>
        simp only [hrv] at h
        by_cases hemp : rvs.isEmpty
        · rw [if_pos hemp] at h
          cases h
          exact ⟨rfl, rfl, rfl⟩
        · rw [if_neg hemp] at h
          cases h
          obtain ⟨sn, q, hf⟩ := seedFold_only_sq dep.name rvs st
          rw [hf]
          exact ⟨rfl, rfl, rfl⟩

lemma seedPhase_only_sq (o : Oracle) (indexUrl : String) (excludePackages : List String) :
    ∀ (requirements : List String) (st st' : PassState),
      seedPhase o indexUrl excludePackages requirements st = .ok st' →
      st'.tree = st.tree ∧ st'.errors = st.errors ∧ st'.probed = st.probed := by
  intro requirements
  induction requirements with
  | nil =>
    intro st st' h
    simp only [seedPhase, Except.ok.injEq] at h
    subst h
    exact ⟨rfl, rfl, rfl⟩
  | cons r rest ih =>
    intro st st' h
    simp only [seedPhase] at h
    cases hs : seedStep o indexUrl excludePackages st r with
    | error e => simp only [hs] at h; exact Except.noConfusion h
    | ok st₁ =>
      simp only [hs] at h
      obtain ⟨h1, h2, h3⟩ := seedStep_only_sq o indexUrl excludePackages st r st₁ hs
      obtain ⟨g1, g2, g3⟩ := ih st₁ st' h
      exact ⟨g1.trans h1, g2.trans h2, g3.trans h3⟩

lemma seedFold_queue_seen (name : String) :
    ∀ (vs : List String) (st : PassState),
      (∀ p, p ∉ st.seen → st.queue.count p = 0) →
      ∀ p, p ∉ (vs.foldl (fun st version =>
          { st with seen := insertPair (name, version) st.seen,
                    queue := (name, version) :: st.queue }) st).seen →
        (vs.foldl (fun st version =>
          { st with seen := insertPair (name, version) st.seen,
                    queue := (name, version) :: st.queue }) st).queue.count p = 0 := by
  intro vs
  induction vs with
  | nil => intro st hq p hp; exact hq p hp
  | cons v rest ih =>
    intro st hq
    refine ih { st with seen := insertPair (name, v) st.seen,
                        queue := (name, v) :: st.queue } ?_
    intro p hp
    have hne : p ≠ (name, v) := by
      intro hcontra
      subst hcontra
      unfold insertPair at hp
      split at hp
      · next hin => exact hp hin
      · exact hp (List.mem_cons_self _ _)
    have hnotseen : p ∉ st.seen := by
      intro hcontra
      unfold insertPair at hp
      split at hp
      · exact hp hcontra
      · exact hp (List.mem_cons_of_mem _ hcontra)
    simp only [List.count_cons, hq p hnotseen]
    have hbeq : (p == (name, v)) = false := beq_eq_false_iff_ne.mpr hne
    simp [hbeq]
    exact fun hc => hne hc.symm

lemma seedStep_queue_seen (o : Oracle) (indexUrl : String) (excludePackages : List String)
    (st : PassState) (requirement : String) (st' : PassState)
    (h : seedStep o indexUrl excludePackages st requirement = .ok st')
    (hq : ∀ p, p ∉ st.seen → st.queue.count p = 0) :
    ∀ p, p ∉ st'.seen → st'.queue.count p = 0 := by
  unfold seedStep at h
  cases hp : o.parse requirement with
  | error details =>
    simp only [hp] at h
    cases h
    exact hq
  | ok dep =>
    simp only [hp] at h
    by_cases hmem : dep.name ∈ excludePackages
    · rw [if_pos hmem] at h
      cases h
      exact hq
    · rw [if_neg hmem] at h
      cases hrv : resolveVersions o indexUrl dep.name
          (some (getDependencySpecification dep.spec)) with
      | error e =>
        simp only [hrv] at h
        exact Except.noConfusion h
      | ok rvs =>
        simp only [hrv] at h
        by_cases hemp : rvs.isEmpty
        · rw [if_pos hemp] at h
          cases h
          exact hq
        · rw [if_neg hemp] at h
          cases h
          exact seedFold_queue_seen dep.name rvs st hq

lemma seedPhase_queue_seen (o : Oracle) (indexUrl : String) (excludePackages : List String) :
    ∀ (requirements : List String) (st st' : PassState),
      seedPhase o indexUrl excludePackages requirements st = .ok st' →
      (∀ p, p ∉ st.seen → st.queue.count p = 0) →
      ∀ p, p ∉ st'.seen → st'.queue.count p = 0 := by
  intro requirements
  induction requirements with
  | nil =>
    intro st st' h hq
    simp only [seedPhase, Except.ok.injEq] at h
    subst h
    exact hq
  | cons r rest ih =>
    intro st st' h hq
    simp only [seedPhase] at h
    cases hs : seedStep o indexUrl excludePackages st r with
    | error e => simp only [hs] at h; exact Except.noConfusion h
    | ok st₁ =>
      simp only [hs] at h
      exact ih st₁ st' h (seedStep_queue_seen o indexUrl excludePackages st r st₁ hs hq)

lemma resolveDep_nontransitive (o : Oracle) (packageName : String) (range : Option String) :
    ∀ (allSolvers : List String) (st : PassState) rv st',
      resolveDep o allSolvers false packageName range st = .ok (rv, st') → st' = st := by
  intro allSolvers
  induction allSolvers with
  | nil =>
    intro st rv st' h
    simp only [resolveDep, Except.ok.injEq, Prod.mk.injEq] at h
    exact h.2.symm
  | cons s rest ih =>
    intro st rv st' h
    simp only [resolveDep] at h
    cases hrv : resolveVersions o s packageName range with
    | error e => simp only [hrv] at h; exact Except.noConfusion h
    | ok versions =>
      simp only [hrv, Bool.false_eq_true, if_false] at h
      cases hrec : resolveDep o rest false packageName range st with
      | error e => simp only [hrec] at h; exact Except.noConfusion h
      | ok pr =>
        obtain ⟨rv₂, st₂⟩ := pr
        simp only [hrec, Except.ok.injEq, Prod.mk.injEq] at h
        obtain ⟨-, h2⟩ := h
        subst h2
        exact ih st rv₂ st₂ hrec

lemma resolveDeps_nontransitive (o : Oracle) (allSolvers : List String) :
    ∀ (deps : List DepOut) (st : PassState) out st',
      resolveDeps o allSolvers false deps st = .ok (out, st') → st' = st := by
  intro deps
  induction deps with
  | nil =>
    intro st out st' h
    simp only [resolveDeps, Except.ok.injEq, Prod.mk.injEq] at h
    exact h.2.symm
  | cons d rest ih =>
    intro st out st' h
    simp only [resolveDeps] at h
    cases hd : resolveDep o allSolvers false d.package_name d.required_version st with
    | error e => simp only [hd] at h; exact Except.noConfusion h
    | ok pr =>
      obtain ⟨resolved, st₁⟩ := pr
      simp only [hd] at h
      cases hrest : resolveDeps o allSolvers false rest st₁ with
      | error e => simp only [hrest] at h; exact Except.noConfusion h
      | ok pr2 =>
        obtain ⟨restOut, st₂⟩ := pr2
        simp only [hrest, Except.ok.injEq, Prod.mk.injEq] at h
        obtain ⟨-, h2⟩ := h
        subst h2
        have h1 := resolveDep_nontransitive o d.package_name d.required_version
          allSolvers st resolved st₁ hd
        subst h1
        exact ih st₁ restOut st₂ hrest

lemma processPackage_cases (o : Oracle) (pythonBin indexUrl : String)
    (allSolvers : List String) (transitive : Bool) (st : PassState)
    (packageName packageVersion : String) (es : ExecState) (st' : PassState) (es' : ExecState)
    (h : processPackage o pythonBin indexUrl allSolvers transitive st packageName
        packageVersion es = (.ok st', es')) :
    (∃ rec, st' = { st with errors := st.errors ++ [rec] })
    ∨ (∃ (eo : List DepOut) (deps : List DepResolved) (st₂ : PassState) (te : TreeEntry),
        resolveDeps o allSolvers transitive eo st = .ok (deps, st₂)
        ∧ te.dependencies = deps
        ∧ st' = { st₂ with tree := st₂.tree ++ [te] }) := by
  unfold processPackage at h
  split at h
  · injection h with h1 h2
    injection h1 with h3
    exact Or.inl ⟨_, h3.symm⟩
  · injection h with h1 h2
    exact Except.noConfusion h1
  · injection h with h1 h2
    injection h1 with h3
    exact Or.inl ⟨_, h3.symm⟩
  · rename_i packageInfo es₂ bflag heq
    cases hce : createEntry o packageInfo (some indexUrl) with
    | error e =>
      simp only [hce] at h
      injection h with h1 h2
      exact Except.noConfusion h1
    | ok entry =>
      simp only [hce] at h
      cases hrd : resolveDeps o allSolvers transitive entry.dependencies st with
      | error e =>
        simp only [hrd] at h
        injection h with h1 h2
        exact Except.noConfusion h1
      | ok pr =>
        obtain ⟨deps, st₂⟩ := pr
        simp only [hrd] at h
        injection h with h1 h2
        injection h1 with h3
        exact Or.inr ⟨entry.dependencies, deps, st₂,
          ⟨entry.package_name, entry.package_version, entry.index_url, entry.sha256, deps⟩,
          hrd, rfl, h3.symm⟩

lemma doResolveIndexFrom_ok_elim (o : Oracle) (solverUrl : String) (allSolvers : List String)
    (requirements : List String) (pythonVersion : Nat) (excludePackages : List String)
    (transitive : Bool) (fuel : Nat) (es : ExecState) (p : PassOut) (es' : ExecState)
    (h : doResolveIndexFrom o solverUrl allSolvers requirements pythonVersion excludePackages
        transitive fuel es = some (.ok p, es')) :
    seedPhase o solverUrl excludePackages requirements initialPassState = .ok p.seed
    ∧ ∃ es₃, drainLoop o (pythonBinFor pythonVersion) solverUrl allSolvers transitive fuel
        p.seed es₃ = some (.ok p.final, es') := by
  unfold doResolveIndexFrom at h
  cases hv : runCmd o "virtualenv -p python3 venv" true es with
  | mk r1 es₁ =>
    cases r1 with
    | error e => simp only [hv] at h; simp at h
    | ok c1 =>
      simp only [hv] at h
      cases hpi : runCmd o (pythonBinFor pythonVersion ++ " -m pip install pipdeptree")
          true es₁ with
      | mk r2 es₂ =>
        cases r2 with
        | error e => simp only [hpi] at h; simp at h
        | ok c2 =>
          simp only [hpi] at h
          cases hs : seedPhase o solverUrl excludePackages requirements initialPassState with
          | error e => simp only [hs] at h; simp at h
          | ok seedState =>
            simp only [hs] at h
            cases he : getEnvironmentDetails o (pythonBinFor pythonVersion) es₂ with
            | mk r3 es₃ =>
              cases r3 with
              | error e => simp only [he] at h; simp at h
              | ok envDetails =>
                simp only [he] at h
                cases hd : drainLoop o (pythonBinFor pythonVersion) solverUrl allSolvers
                    transitive fuel seedState es₃ with
                | none => simp only [hd] at h; exact Option.noConfusion h
                | some pr =>
                  obtain ⟨r4, es₄⟩ := pr
                  cases r4 with
                  | error e => simp only [hd] at h; simp at h
                  | ok finalState =>
                    simp only [hd, Option.some.injEq, Prod.mk.injEq, Except.ok.injEq] at h
                    obtain ⟨h1, h2⟩ := h
                    subst h2
                    subst h1
                    exact ⟨rfl, es₃, hd⟩

lemma drainLoop_tree_align (o : Oracle) (pythonBin indexUrl : String)
    (allSolvers : List String) (transitive : Bool) :
    ∀ (fuel : Nat) (st : PassState) (es : ExecState) (st' : PassState) (es' : ExecState),
      drainLoop o pythonBin indexUrl allSolvers transitive fuel st es = some (.ok st', es') →
      (∀ e ∈ st.tree, ∀ d ∈ e.dependencies,
        d.resolved_versions.map IndexVersions.index = allSolvers) →
      ∀ e ∈ st'.tree, ∀ d ∈ e.dependencies,
        d.resolved_versions.map IndexVersions.index = allSolvers := by
  intro fuel
  induction fuel with
  | zero =>
    intro st es st' es' h hinv
    simp only [drainLoop] at h
    cases hq : st.queue with
    | nil =>
      simp only [hq, Option.some.injEq, Prod.mk.injEq, Except.ok.injEq] at h
      obtain ⟨h1, -⟩ := h
      exact h1 ▸ hinv
    | cons pr rest => simp only [hq] at h; exact Option.noConfusion h
  | succ n ih =>
    intro st es st' es' h hinv
    simp only [drainLoop] at h
    cases hq : st.queue with
    | nil =>
      simp only [hq, Option.some.injEq, Prod.mk.injEq, Except.ok.injEq] at h
      obtain ⟨h1, -⟩ := h
      exact h1 ▸ hinv
    | cons pr rest =>
      obtain ⟨pn, pv⟩ := pr
      simp only [hq] at h
      cases hp : processPackage o pythonBin indexUrl allSolvers transitive
          { st with queue := rest, probed := st.probed ++ [(pn, pv)] } pn pv es with
      | mk r es₂ =>
        cases r with
        | error e => simp only [hp] at h; simp at h
        | ok st₁ =>
          simp only [hp] at h
          refine ih st₁ es₂ st' es' h ?_
          obtain hl | hr := processPackage_cases o pythonBin indexUrl allSolvers transitive
            _ pn pv es st₁ es₂ hp
          · obtain ⟨rec, hrec⟩ := hl
            rw [hrec]
            exact hinv
          · obtain ⟨eo, deps, st₂, te, hrd, hte, hst⟩ := hr
            obtain ⟨hEq, -, -⟩ :=
              (resolveDeps_freshExtension o allSolvers transitive eo _ deps st₂ hrd).choose_spec
            subst hst
            intro e he
            simp only [List.mem_append] at he
            rcases he with hin | hnew
            · rw [hEq] at hin
              exact hinv e hin
            · have halign := resolveDeps_index_align o allSolvers transitive eo _ deps st₂ hrd
              simp only [List.mem_singleton] at hnew
              subst hnew
              rw [hte]
              intro d hd
              exact halign d hd

lemma drainLoop_nontransitive (o : Oracle) (pythonBin indexUrl : String)
    (allSolvers : List String) :
    ∀ (fuel : Nat) (st : PassState) (es : ExecState) (st' : PassState) (es' : ExecState),
      drainLoop o pythonBin indexUrl allSolvers false fuel st es = some (.ok st', es') →
      st'.probed = st.probed ++ st.queue ∧ st'.seen = st.seen ∧ st'.queue = []
      ∧ st'.tree.length + st'.errors.length
          = st.tree.length + st.errors.length + st.queue.length := by
  intro fuel
  induction fuel with
  | zero =>
    intro st es st' es' h
    simp only [drainLoop] at h
    cases hq : st.queue with
    | nil =>
      simp only [hq, Option.some.injEq, Prod.mk.injEq, Except.ok.injEq] at h
      obtain ⟨h1, -⟩ := h
      subst h1
      simp [hq]
    | cons pr rest => simp only [hq] at h; exact Option.noConfusion h
  | succ n ih =>
    intro st es st' es' h
    simp only [drainLoop] at h
    cases hq : st.queue with
    | nil =>
      simp only [hq, Option.some.injEq, Prod.mk.injEq, Except.ok.injEq] at h
      obtain ⟨h1, -⟩ := h
      subst h1
      simp [hq]
    | cons pr rest =>
      obtain ⟨pn, pv⟩ := pr
      simp only [hq] at h
      cases hp : processPackage o pythonBin indexUrl allSolvers false
          { st with queue := rest, probed := st.probed ++ [(pn, pv)] } pn pv es with
      | mk r es₂ =>
        cases r with
        | error e => simp only [hp] at h; simp at h
        | ok st₁ =>
          simp only [hp] at h
          obtain ⟨g1, g2, g3, g4⟩ := ih st₁ es₂ st' es' h
          obtain hl | hr := processPackage_cases o pythonBin indexUrl allSolvers false
            _ pn pv es st₁ es₂ hp
          · obtain ⟨rec, hrec⟩ := hl
            subst hrec
            refine ⟨?_, by simpa using g2, g3, ?_⟩
            · rw [g1]
              simp [hq]
            · rw [g4]
              simp [hq]
              omega
          · obtain ⟨eo, deps, st₂, te, hrd, hte, hst⟩ := hr
            have h₂ := resolveDeps_nontransitive o allSolvers eo _ deps st₂ hrd
            subst h₂
            subst hst
            refine ⟨?_, by simpa using g2, g3, ?_⟩
            · rw [g1]
              simp [hq]
            · rw [g4]
              simp [hq]
              omega

/-- C5 (confirmed).  Every dependency of every tree entry produced by a
pass records exactly one `resolved_versions` element per configured
solver, in the configured order (the recorded index URLs are exactly the
solver list), regardless of what each per-index resolution returned. -/
theorem c5_resolved_versions_one_per_index (o : Oracle) (solverUrl : String)
    (allSolvers : List String) (requirements : List String) (pythonVersion : Nat)
    (excludePackages : List String) (transitive : Bool) (fuel : Nat) (es : ExecState)
    (p : PassOut) (es' : ExecState)
    (h : doResolveIndexFrom o solverUrl allSolvers requirements pythonVersion excludePackages
        transitive fuel es = some (.ok p, es')) :
    ∀ e ∈ p.final.tree, ∀ d ∈ e.dependencies,
      d.resolved_versions.map IndexVersions.index = allSolvers
      ∧ d.resolved_versions.length = allSolvers.length := by
  obtain ⟨hseed, es₃, hdrain⟩ := doResolveIndexFrom_ok_elim o solverUrl allSolvers requirements
    pythonVersion excludePackages transitive fuel es p es' h
  have hseedtree : p.seed.tree = [] :=
    (seedPhase_only_sq o solverUrl excludePackages requirements initialPassState p.seed hseed).1
  have halign := drainLoop_tree_align o (pythonBinFor pythonVersion) solverUrl allSolvers
    transitive fuel p.seed es₃ p.final es' hdrain
    (by rw [hseedtree]; intro e he; simp at he)
  intro e he d hd
  refine ⟨halign e he d hd, ?_⟩
  rw [← halign e he d hd, List.length_map]

/-- C5 witness: in the concrete `depOracle` pass, the dependency bar of
the probed entry foo carries exactly one resolution record, for the single
configured index i. -/
theorem c5_resolved_versions_one_per_index_witness :
    (⟨"bar", some ">=0.1", [⟨["1.0"], "i"⟩]⟩ : DepResolved).resolved_versions.map
        IndexVersions.index = ["i"]
    ∧ (⟨"bar", some ">=0.1", [⟨["1.0"], "i"⟩]⟩ : DepResolved).resolved_versions.length
        = (["i"] : List String).length :=
  c5_resolved_versions_one_per_index depOracle "i" ["i"] ["foo"] 3 [] false 5 ⟨0, []⟩
    depRunPass ⟨7, ["virtualenv -p python3 venv", "venv/bin/python3 -m pip install pipdeptree",
      "venv/bin/python3 -m pipdeptree --json", "venv/bin/python3 -m pipdeptree --json",
      "venv/bin/python3 -m pip install --force-reinstall --no-cache-dir --no-deps foo==1.0 --index-url \"i\" ",
      "venv/bin/python3 -m pipdeptree --json",
      "venv/bin/python3 -m pip install --force-reinstall --no-cache-dir --no-deps foo==1.0"]⟩
    rfl
    ⟨"foo", "1.0", some "i", some ["h"],
      [⟨"bar", some ">=0.1", [⟨["1.0"], "i"⟩]⟩]⟩ (List.mem_singleton.mpr rfl)
    ⟨"bar", some ">=0.1", [⟨["1.0"], "i"⟩]⟩ (List.mem_singleton.mpr rfl)

/-- C7 (confirmed).  With `transitive = False` the queue is never
repopulated: the pairs probed are exactly the pairs enqueued by the seed
loop (in pop order), the visited-set never grows during the drain, the
queue ends empty, and every queue pop produced exactly one tree entry or
one error record, so the tree only holds entries probed directly from the
seed requirements. -/
theorem c7_nontransitive_probes_only_seeds (o : Oracle) (solverUrl : String)
    (allSolvers : List String) (requirements : List String) (pythonVersion : Nat)
    (excludePackages : List String) (fuel : Nat) (es : ExecState) (p : PassOut)
    (es' : ExecState)
    (h : doResolveIndexFrom o solverUrl allSolvers requirements pythonVersion excludePackages
        false fuel es = some (.ok p, es')) :
    p.final.probed = p.seed.queue ∧ p.final.seen = p.seed.seen ∧ p.final.queue = []
    ∧ p.final.tree.length + p.final.errors.length = p.seed.queue.length := by
  obtain ⟨hseed, es₃, hdrain⟩ := doResolveIndexFrom_ok_elim o solverUrl allSolvers requirements
    pythonVersion excludePackages false fuel es p es' h
  obtain ⟨hst, hse, hsp⟩ :=
    seedPhase_only_sq o solverUrl excludePackages requirements initialPassState p.seed hseed
  obtain ⟨g1, g2, g3, g4⟩ := drainLoop_nontransitive o (pythonBinFor pythonVersion) solverUrl
    allSolvers fuel p.seed es₃ p.final es' hdrain
  refine ⟨?_, g2, g3, ?_⟩
  · rw [g1, hsp]
    simp [initialPassState]
  · rw [g4, hst, hse]
    simp [initialPassState]

/-- C7 witness: in the non-transitive `depOracle` pass, exactly the single
seed pair (foo, 1.0) was probed, the visited-set is unchanged from the
seed phase, and the one seed pop produced the one tree entry. -/
theorem c7_nontransitive_probes_only_seeds_witness :
    depRunPass.final.probed = depRunPass.seed.queue
    ∧ depRunPass.final.seen = depRunPass.seed.seen
    ∧ depRunPass.final.queue = []
    ∧ depRunPass.final.tree.length + depRunPass.final.errors.length
        = depRunPass.seed.queue.length :=
  c7_nontransitive_probes_only_seeds depOracle "i" ["i"] ["foo"] 3 [] 5 ⟨0, []⟩
    depRunPass ⟨7, ["virtualenv -p python3 venv", "venv/bin/python3 -m pip install pipdeptree",
      "venv/bin/python3 -m pipdeptree --json", "venv/bin/python3 -m pipdeptree --json",
      "venv/bin/python3 -m pip install --force-reinstall --no-cache-dir --no-deps foo==1.0 --index-url \"i\" ",
      "venv/bin/python3 -m pipdeptree --json",
      "venv/bin/python3 -m pip install --force-reinstall --no-cache-dir --no-deps foo==1.0"]⟩
    rfl

lemma count_le_one_of_nodup (L : List (String × String)) (h : L.Nodup)
    (p : String × String) : L.count p ≤ 1 := by
  induction L with
  | nil => simp
  | cons a t ih =>
    rw [List.count_cons]
    rcases List.nodup_cons.mp h with ⟨ha, ht⟩
    by_cases hpa : p = a
    · subst hpa
      rw [List.count_eq_zero.mpr ha]
      simp
    · have hne : ¬(a = p) := fun hc => hpa hc.symm
      simp [hpa, hne]
      simpa using ih ht

lemma probeInv_pop (seedQueue : List (String × String)) (st : PassState)
    (pn pv : String) (rest : List (String × String)) (hq : st.queue = (pn, pv) :: rest)
    (hinv : ProbeInv seedQueue st) :
    ProbeInv seedQueue { st with queue := rest, probed := st.probed ++ [(pn, pv)] } := by
  intro p
  have hsum : (st.probed ++ [(pn, pv)]).count p + rest.count p
      = st.probed.count p + st.queue.count p := by
    rw [hq]
    simp only [List.count_append, List.count_cons, List.count_nil]
    omega
  obtain ⟨h1, h2⟩ := hinv p
  exact ⟨fun hp => by rw [hsum]; exact h1 hp, by rw [hsum]; exact h2⟩

lemma processPackage_probeInv (seedQueue : List (String × String)) (o : Oracle)
    (pythonBin indexUrl : String) (allSolvers : List String) (transitive : Bool)
    (st : PassState) (packageName packageVersion : String) (es : ExecState)
    (st' : PassState) (es' : ExecState)
    (h : processPackage o pythonBin indexUrl allSolvers transitive st packageName
        packageVersion es = (.ok st', es'))
    (hinv : ProbeInv seedQueue st) : ProbeInv seedQueue st' := by
  obtain hl | hr := processPackage_cases o pythonBin indexUrl allSolvers transitive
    st packageName packageVersion es st' es' h
  · obtain ⟨rec, hrec⟩ := hl
    subst hrec
    exact hinv
  · obtain ⟨eo, deps, st₂, te, hrd, -, hst⟩ := hr
    obtain ⟨L, hEq, hfresh, hnd⟩ :=
      resolveDeps_freshExtension o allSolvers transitive eo st deps st₂ hrd
    subst hst
    intro p
    obtain ⟨h1, h2⟩ := hinv p
    have hcount : ({ st₂ with tree := st₂.tree ++ [te] } : PassState).probed.count p
          + ({ st₂ with tree := st₂.tree ++ [te] } : PassState).queue.count p
        = st.probed.count p + st.queue.count p + L.count p := by
      rw [hEq]
      simp only [List.count_append]
      omega
    constructor
    · intro hp
      rw [hEq] at hp
      simp only [List.mem_append, not_or] at hp
      obtain ⟨hpL, hpseen⟩ := hp
      rw [hcount, h1 hpseen, List.count_eq_zero.mpr hpL]
    · rw [hcount]
      by_cases hpL : p ∈ L
      · have hzero : st.probed.count p + st.queue.count p = 0 := h1 (hfresh p hpL)
        have hone : L.count p ≤ 1 := count_le_one_of_nodup L hnd p
        have : (1 : Nat) ≤ max 1 (seedQueue.count p) := le_max_left _ _
        omega
      · rw [List.count_eq_zero.mpr hpL]
        omega

lemma drainLoop_probeInv (seedQueue : List (String × String)) (o : Oracle)
    (pythonBin indexUrl : String) (allSolvers : List String) (transitive : Bool) :
    ∀ (fuel : Nat) (st : PassState) (es : ExecState) (st' : PassState) (es' : ExecState),
      drainLoop o pythonBin indexUrl allSolvers transitive fuel st es = some (.ok st', es') →
      ProbeInv seedQueue st → ProbeInv seedQueue st' := by
  intro fuel
  induction fuel with
  | zero =>
    intro st es st' es' h hinv
    simp only [drainLoop] at h
    cases hq : st.queue with
    | nil =>
      simp only [hq, Option.some.injEq, Prod.mk.injEq, Except.ok.injEq] at h
      obtain ⟨h1, -⟩ := h
      exact h1 ▸ hinv
    | cons pr rest => simp only [hq] at h; exact Option.noConfusion h
  | succ n ih =>
    intro st es st' es' h hinv
    simp only [drainLoop] at h
    cases hq : st.queue with
    | nil =>
      simp only [hq, Option.some.injEq, Prod.mk.injEq, Except.ok.injEq] at h
      obtain ⟨h1, -⟩ := h
      exact h1 ▸ hinv
    | cons pr rest =>
      obtain ⟨pn, pv⟩ := pr
      simp only [hq] at h
      cases hp : processPackage o pythonBin indexUrl allSolvers transitive
          { st with queue := rest, probed := st.probed ++ [(pn, pv)] } pn pv es with
      | mk r es₂ =>
        cases r with
        | error e => simp only [hp] at h; simp at h
        | ok st₁ =>
          simp only [hp] at h
          refine ih st₁ es₂ st' es' h ?_
          exact processPackage_probeInv seedQueue o pythonBin indexUrl allSolvers transitive
            _ pn pv es st₁ es₂ hp (probeInv_pop seedQueue st pn pv rest hq hinv)

/-- C2 (amended, confirmed).  The visited-set check dedupes only in
dependency expansion: anything the expansion admits was absent from the
visited-set (and everything queued is in the visited-set), so within one
pass a (name, version) pair is popped from the queue and probed at most
the larger of once and the number of times the seed loop pushed it; in
particular a pair never produced by the seed loop is probed at most once,
while duplicate seed productions are probed once each. -/
theorem c2_probe_count_bounded_by_seed_multiplicity (o : Oracle) (solverUrl : String)
    (allSolvers : List String) (requirements : List String) (pythonVersion : Nat)
    (excludePackages : List String) (transitive : Bool) (fuel : Nat) (es : ExecState)
    (p : PassOut) (es' : ExecState)
    (h : doResolveIndexFrom o solverUrl allSolvers requirements pythonVersion excludePackages
        transitive fuel es = some (.ok p, es')) :
    ∀ pr : String × String, p.final.probed.count pr ≤ max 1 (p.seed.queue.count pr) := by
  obtain ⟨hseed, es₃, hdrain⟩ := doResolveIndexFrom_ok_elim o solverUrl allSolvers requirements
    pythonVersion excludePackages transitive fuel es p es' h
  have hqs : ∀ q, q ∉ p.seed.seen → p.seed.queue.count q = 0 :=
    seedPhase_queue_seen o solverUrl excludePackages requirements initialPassState p.seed hseed
      (by intro q hq; simp [initialPassState])
  have hsp : p.seed.probed = [] :=
    (seedPhase_only_sq o solverUrl excludePackages requirements initialPassState p.seed hseed).2.2
  have hinv : ProbeInv p.seed.queue p.seed := by
    intro q
    constructor
    · intro hq
      rw [hsp, hqs q hq]
      simp
    · rw [hsp]
      simp only [List.count_nil, Nat.zero_add]
      exact le_max_right _ _
  have hfinal := drainLoop_probeInv p.seed.queue o (pythonBinFor pythonVersion) solverUrl
    allSolvers transitive fuel p.seed es₃ p.final es' hdrain hinv
  intro pr
  have h2 := (hfinal pr).2
  omega

/-- C2 amended witness: a pass with no seed requirements probes the pair
(foo, 1.0) zero times, within the bound. -/
theorem c2_probe_count_bounded_by_seed_multiplicity_witness :
    (PassOut.mk initialPassState initialPassState []).final.probed.count ("foo", "1.0")
      ≤ max 1 ((PassOut.mk initialPassState initialPassState []).seed.queue.count
          ("foo", "1.0")) :=
  c2_probe_count_bounded_by_seed_multiplicity allOkOracle "i" ["i"] [] 3 [] true 0 ⟨0, []⟩
    (PassOut.mk initialPassState initialPassState [])
    ⟨3, ["virtualenv -p python3 venv", "venv/bin/python3 -m pip install pipdeptree",
      "venv/bin/python3 -m pipdeptree --json"]⟩ rfl ("foo", "1.0")

lemma resolveVersions_ok (o : Oracle)
    (hsolve : ∀ u s res, o.solve u s = .ok res → res.length = 1)
    (u packageName : String) (range : Option String) :
    ∃ vs, resolveVersions o u packageName range = .ok vs := by
  unfold resolveVersions
  cases hs : o.solve u (packageName ++ range.getD "") with
  | notFound => exact ⟨[], rfl⟩
  | failed => exact ⟨[], rfl⟩
  | ok res =>
    have hlen := hsolve _ _ _ hs
    cases res with
    | nil => simp at hlen
    | cons a t =>
      cases t with
      | nil =>
        obtain ⟨k, vs⟩ := a
        exact ⟨vs, rfl⟩
      | cons b t2 => simp at hlen

lemma runCmd_rc_ok (o : Oracle) (cmd : String) (es : ExecState)
    (hrc : (o.exec es.ix cmd).rc = 0) :
    runCmd o cmd true es = (.ok (o.exec es.ix cmd), ⟨es.ix + 1, es.trace ++ [cmd]⟩) := by
  unfold runCmd
  simp [hrc]

lemma runCmd_error_shape (o : Oracle) (cmd : String) (b : Bool) (es : ExecState)
    (e : PyErr) (es' : ExecState) (h : runCmd o cmd b es = (.error e, es')) :
    e = .commandError cmd (o.exec es.ix cmd).details := by
  unfold runCmd at h
  dsimp only at h
  split at h
  · injection h with h1 h2
    injection h1 with h3
    exact h3.symm
  · injection h with h1 h2
    exact Except.noConfusion h1

lemma pipdeptree_ok (o : Oracle) (pythonBin : String) (es : ExecState)
    (hrc : (o.exec es.ix (pipdeptreeCommand pythonBin)).rc = 0) :
    pipdeptree o pythonBin es
      = (.ok (o.exec es.ix (pipdeptreeCommand pythonBin)).stdout_entries,
         ⟨es.ix + 1, es.trace ++ [pipdeptreeCommand pythonBin]⟩) := by
  unfold pipdeptree
  rw [runCmd_rc_ok o (pipdeptreeCommand pythonBin) es hrc]

lemma pipdeptree_error_shape (o : Oracle) (pythonBin : String) (es : ExecState)
    (e : PyErr) (es' : ExecState)
    (h : pipdeptree o pythonBin es = (.error e, es')) :
    e = .commandError (pipdeptreeCommand pythonBin)
      (o.exec es.ix (pipdeptreeCommand pythonBin)).details := by
  unfold pipdeptree at h
  cases hr : runCmd o (pipdeptreeCommand pythonBin) true es with
  | mk r es₂ =>
    cases r with
    | error e2 =>
      simp only [hr] at h
      injection h with h1 h2
      injection h1 with h1e
      subst h1e
      exact runCmd_error_shape o (pipdeptreeCommand pythonBin) true es _ es₂ hr
    | ok out =>
      simp only [hr] at h
      injection h with h1 h2
      exact Except.noConfusion h1

lemma createEntry_ok (o : Oracle)
    (hhash : ∀ u n v, ∃ hs, o.getHashes u n v = .ok hs)
    (entry : PdtEntry) (source : Option String) :
    ∃ eo, createEntry o entry source = .ok eo := by
  cases source with
  | none => exact ⟨_, rfl⟩
  | some url =>
    obtain ⟨hs, hh⟩ := hhash url entry.package.package_name entry.package.installed_version
    refine ⟨⟨entry.package.package_name, entry.package.installed_version, some url, some hs,
      entry.dependencies.map (fun d => DepOut.mk d.package_name d.required_version)⟩, ?_⟩
    simp only [createEntry, hh]

lemma mapM_createEntry_none (o : Oracle) :
    ∀ (l : List PdtEntry), ∃ res, l.mapM (fun entry => createEntry o entry none) = .ok res := by
  intro l
  induction l with
  | nil => exact ⟨[], rfl⟩
  | cons e t ih =>
    obtain ⟨res, hres⟩ := ih
    refine ⟨⟨e.package.package_name, e.package.installed_version, none, none,
      e.dependencies.map (fun d => DepOut.mk d.package_name d.required_version)⟩ :: res, ?_⟩
    rw [List.mapM_cons]
    have hce : createEntry o e none
        = .ok ⟨e.package.package_name, e.package.installed_version, none, none,
            e.dependencies.map (fun d => DepOut.mk d.package_name d.required_version)⟩ := rfl
    rw [hce, hres]
    rfl

lemma getEnvironmentDetails_ok (o : Oracle) (pythonBin : String) (es : ExecState)
    (hrc : (o.exec es.ix (pipdeptreeCommand pythonBin)).rc = 0) :
    ∃ env es', getEnvironmentDetails o pythonBin es = (.ok env, es') := by
  obtain ⟨res, hres⟩ :=
    mapM_createEntry_none o (o.exec es.ix (pipdeptreeCommand pythonBin)).stdout_entries
  refine ⟨res, ⟨es.ix + 1, es.trace ++ [pipdeptreeCommand pythonBin]⟩, ?_⟩
  unfold getEnvironmentDetails
  simp only [pipdeptree_ok o pythonBin es hrc, hres]

lemma resolveDep_ok (o : Oracle)
    (hsolve : ∀ u s res, o.solve u s = .ok res → res.length = 1)
    (transitive : Bool) (packageName : String) (range : Option String) :
    ∀ (allSolvers : List String) (st : PassState),
      ∃ rv st', resolveDep o allSolvers transitive packageName range st = .ok (rv, st') := by
  intro allSolvers
  induction allSolvers with
  | nil => intro st; exact ⟨[], st, rfl⟩
  | cons s rest ih =>
    intro st
    obtain ⟨vs, hvs⟩ := resolveVersions_ok o hsolve s packageName range
    obtain ⟨rv₂, st₂, hrec⟩ :=
      ih (if transitive then admitVersions packageName vs st else st)
    refine ⟨⟨vs, s⟩ :: rv₂, st₂, ?_⟩
    simp only [resolveDep, hvs, hrec]

lemma resolveDeps_ok (o : Oracle) (allSolvers : List String)
    (hsolve : ∀ u s res, o.solve u s = .ok res → res.length = 1) (transitive : Bool) :
    ∀ (deps : List DepOut) (st : PassState),
      ∃ out st', resolveDeps o allSolvers transitive deps st = .ok (out, st') := by
  intro deps
  induction deps with
  | nil => intro st; exact ⟨[], st, rfl⟩
  | cons d rest ih =>
    intro st
    obtain ⟨rv, st₁, hd⟩ :=
      resolveDep_ok o hsolve transitive d.package_name d.required_version allSolvers st
    obtain ⟨out₂, st₂, hrest⟩ := ih st₁
    refine ⟨⟨d.package_name, d.required_version, rv⟩ :: out₂, st₂, ?_⟩
    simp only [resolveDeps, hd, hrest]

lemma installAndInspect_error (o : Oracle) (pythonBin package : String)
    (version indexUrl : Option String) (clean : Bool) (es : ExecState)
    (e : PyErr) (es' : ExecState) (b : Bool)
    (h : installAndInspect o pythonBin package version indexUrl clean es = (.error e, es', b)) :
    (∃ c d, e = .commandError c d) ∧ b = false := by
  unfold installAndInspect at h
  cases hp1 : pipdeptree o pythonBin es with
  | mk r1 es₁ =>
    cases r1 with
    | error e1 =>
      simp only [hp1] at h
      injection h with h1 h2
      injection h2 with h21 h22
      injection h1 with h1e
      subst h1e
      exact ⟨⟨_, _, pipdeptree_error_shape o pythonBin es _ es₁ hp1⟩, h22.symm⟩
    | ok out0 =>
      simp only [hp1] at h
      cases hr : runCmd o (installCommand pythonBin package version indexUrl) true es₁ with
      | mk r2 es₂ =>
        cases r2 with
        | error e2 =>
          simp only [hr] at h
          injection h with h1 h2
          injection h2 with h21 h22
          injection h1 with h1e
          subst h1e
          exact ⟨⟨_, _, runCmd_error_shape o _ true es₁ _ es₂ hr⟩, h22.symm⟩
        | ok c1 =>
          simp only [hr] at h
          cases hp2 : pipdeptree o pythonBin es₂ with
          | mk r3 es₃ =>
            cases r3 with
            | error e3 =>
              simp only [hp2] at h
              injection h with h1 h2
              injection h2 with h21 h22
              injection h1 with h1e
              subst h1e
              exact ⟨⟨_, _, pipdeptree_error_shape o pythonBin es₂ _ es₃ hp2⟩, h22.symm⟩
            | ok out1 =>
              simp only [hp2] at h
              cases clean with
              | false => simp at h
              | true =>
                cases hprev : pdtFind out0 package with
                | some prev =>
                  simp only [hprev] at h
                  cases hrc : runCmd o (pythonBin ++ " -m pip install --force-reinstall --no-cache-dir --no-deps "
                      ++ quote package ++ "==" ++ quote prev.package.installed_version) false es₃ with
                  | mk rr es₄ =>
                    simp only [hrc] at h
                    simp at h
                | none =>
                  simp only [hprev] at h
                  cases hrc : runCmd o (pythonBin ++ " -m pip uninstall --yes " ++ quote package)
                      false es₃ with
                  | mk rr es₄ =>
                    simp only [hrc] at h
                    simp at h

lemma processPackage_ok (o : Oracle) (pythonBin indexUrl : String) (allSolvers : List String)
    (transitive : Bool) (st : PassState) (packageName packageVersion : String) (es : ExecState)
    (hhash : ∀ u n v, ∃ hs, o.getHashes u n v = .ok hs)
    (hsolve : ∀ u s res, o.solve u s = .ok res → res.length = 1) :
    ∃ st' es', processPackage o pythonBin indexUrl allSolvers transitive st packageName
      packageVersion es = (.ok st', es') := by
  cases hii : installAndInspect o pythonBin packageName (some packageVersion) (some indexUrl)
      true es with
  | mk r rest =>
    obtain ⟨es₂, b⟩ := rest
    cases r with
    | error e =>
      obtain ⟨⟨c, d, he⟩, hb⟩ := installAndInspect_error o pythonBin packageName
        (some packageVersion) (some indexUrl) true es e es₂ b hii
      subst he
      subst hb
      refine ⟨{ st with errors := st.errors
          ++ [⟨packageName, indexUrl, packageVersion, "command_error", d⟩] }, es₂, ?_⟩
      unfold processPackage
      simp only [hii]
    | ok oi =>
      cases oi with
      | none =>
        refine ⟨{ st with errors := st.errors
            ++ [⟨packageName, indexUrl, packageVersion, "not_site_package",
              "Failed to get information about installed package, probably not site package"⟩] },
          es₂, ?_⟩
        unfold processPackage
        simp only [hii]
      | some packageInfo =>
        obtain ⟨entry, hce⟩ := createEntry_ok o hhash packageInfo (some indexUrl)
        obtain ⟨deps, st₂, hrd⟩ := resolveDeps_ok o allSolvers hsolve transitive
          entry.dependencies st
        refine ⟨{ st₂ with tree := st₂.tree ++ [⟨entry.package_name, entry.package_version,
          entry.index_url, entry.sha256, deps⟩] }, es₂, ?_⟩
        unfold processPackage
        simp only [hii, hce, hrd]

lemma drainLoop_ok (o : Oracle) (pythonBin indexUrl : String) (allSolvers : List String)
    (transitive : Bool)
    (hhash : ∀ u n v, ∃ hs, o.getHashes u n v = .ok hs)
    (hsolve : ∀ u s res, o.solve u s = .ok res → res.length = 1) :
    ∀ (fuel : Nat) (st : PassState) (es : ExecState) r,
      drainLoop o pythonBin indexUrl allSolvers transitive fuel st es = some r →
      ∃ st' es', r = (.ok st', es') := by
  intro fuel
  induction fuel with
  | zero =>
    intro st es r h
    simp only [drainLoop] at h
    cases hq : st.queue with
    | nil =>
      simp only [hq, Option.some.injEq] at h
      exact ⟨st, es, h.symm⟩
    | cons a t => simp only [hq] at h; exact Option.noConfusion h
  | succ n ih =>
    intro st es r h
    simp only [drainLoop] at h
    cases hq : st.queue with
    | nil =>
      simp only [hq, Option.some.injEq] at h
      exact ⟨st, es, h.symm⟩
    | cons pr t =>
      obtain ⟨pn, pv⟩ := pr
      simp only [hq] at h
      obtain ⟨st₁, es₁, hp⟩ := processPackage_ok o pythonBin indexUrl allSolvers transitive
        { st with queue := t, probed := st.probed ++ [(pn, pv)] } pn pv es hhash hsolve
      simp only [hp] at h
      exact ih st₁ es₁ r h

lemma seedStep_ok (o : Oracle) (indexUrl : String) (excludePackages : List String)
    (st : PassState) (requirement : String)
    (hsolve : ∀ u s res, o.solve u s = .ok res → res.length = 1) :
    ∃ st', seedStep o indexUrl excludePackages st requirement = .ok st' := by
  cases hp : o.parse requirement with
  | error details =>
    refine ⟨{ st with unparsed := st.unparsed ++ [⟨requirement, details⟩] }, ?_⟩
    unfold seedStep
    simp only [hp]
  | ok dep =>
    by_cases hmem : dep.name ∈ excludePackages
    · refine ⟨st, ?_⟩
      unfold seedStep
      simp only [hp]
      rw [if_pos hmem]
    · obtain ⟨vs, hvs⟩ := resolveVersions_ok o hsolve indexUrl dep.name
        (some (getDependencySpecification dep.spec))
      by_cases hemp : vs.isEmpty
      · refine ⟨{ st with unresolved := st.unresolved
          ++ [⟨dep.name, getDependencySpecification dep.spec, indexUrl⟩] }, ?_⟩
        unfold seedStep
        simp only [hp]
        rw [if_neg hmem]
        simp only [hvs]
        rw [if_pos hemp]
      · refine ⟨vs.foldl (fun st version =>
            { st with seen := insertPair (dep.name, version) st.seen,
                      queue := (dep.name, version) :: st.queue }) st, ?_⟩
        unfold seedStep
        simp only [hp]
        rw [if_neg hmem]
        simp only [hvs]
        rw [if_neg hemp]

lemma seedPhase_ok (o : Oracle) (indexUrl : String) (excludePackages : List String)
    (hsolve : ∀ u s res, o.solve u s = .ok res → res.length = 1) :
    ∀ (requirements : List String) (st : PassState),
      ∃ st', seedPhase o indexUrl excludePackages requirements st = .ok st' := by
  intro requirements
  induction requirements with
  | nil => intro st; exact ⟨st, rfl⟩
  | cons r rest ih =>
    intro st
    obtain ⟨st₁, hs⟩ := seedStep_ok o indexUrl excludePackages st r hsolve
    obtain ⟨st₂, hrest⟩ := ih st₁
    refine ⟨st₂, ?_⟩
    simp only [seedPhase, hs, hrest]

lemma doResolveIndexFrom_ok (o : Oracle) (solverUrl : String) (allSolvers : List String)
    (requirements : List String) (pythonVersion : Nat) (excludePackages : List String)
    (transitive : Bool) (fuel : Nat) (es : ExecState)
    (hvenv : (o.exec es.ix "virtualenv -p python3 venv").rc = 0)
    (hsetup : (o.exec (es.ix + 1) (pythonBinFor pythonVersion
        ++ " -m pip install pipdeptree")).rc = 0)
    (hbase : (o.exec (es.ix + 2) (pipdeptreeCommand (pythonBinFor pythonVersion))).rc = 0)
    (hhash : ∀ u n v, ∃ hs, o.getHashes u n v = .ok hs)
    (hsolve : ∀ u s res, o.solve u s = .ok res → res.length = 1) :
    ∀ r, doResolveIndexFrom o solverUrl allSolvers requirements pythonVersion excludePackages
        transitive fuel es = some r →
      ∃ p es', r = (.ok p, es') := by
  intro r h
  unfold doResolveIndexFrom at h
  simp only [runCmd_rc_ok o "virtualenv -p python3 venv" es hvenv] at h
  simp only [runCmd_rc_ok o (pythonBinFor pythonVersion ++ " -m pip install pipdeptree")
    ⟨es.ix + 1, es.trace ++ ["virtualenv -p python3 venv"]⟩ hsetup] at h
  obtain ⟨seedSt, hs⟩ := seedPhase_ok o solverUrl excludePackages hsolve requirements
    initialPassState
  simp only [hs] at h
  obtain ⟨env, es₃, he⟩ := getEnvironmentDetails_ok o (pythonBinFor pythonVersion)
    ⟨es.ix + 1 + 1, (es.trace ++ ["virtualenv -p python3 venv"])
      ++ [pythonBinFor pythonVersion ++ " -m pip install pipdeptree"]⟩ hbase
  simp only [he] at h
  cases hd : drainLoop o (pythonBinFor pythonVersion) solverUrl allSolvers transitive fuel
      seedSt es₃ with
  | none => simp only [hd] at h; exact Option.noConfusion h
  | some pr =>
    obtain ⟨rr, es₄⟩ := pr
    obtain ⟨st', es'', hrr⟩ := drainLoop_ok o (pythonBinFor pythonVersion) solverUrl allSolvers
      transitive hhash hsolve fuel seedSt es₃ (rr, es₄) hd
    injection hrr with hrr1 hrr2
    subst hrr1
    subst hrr2
    simp only [hd, Option.some.injEq] at h
    exact ⟨_, _, h.symm⟩

lemma runPasses_ok (o : Oracle) (allSolvers requirements : List String)
    (pythonVersion : Nat) (excludePackages : List String) (transitive : Bool) (fuel : Nat)
    (hvenv : ∀ ix, (o.exec ix "virtualenv -p python3 venv").rc = 0)
    (hsetup : ∀ ix, (o.exec ix (pythonBinFor pythonVersion
        ++ " -m pip install pipdeptree")).rc = 0)
    (hpdt : ∀ ix, (o.exec ix (pipdeptreeCommand (pythonBinFor pythonVersion))).rc = 0)
    (hhash : ∀ u n v, ∃ hs, o.getHashes u n v = .ok hs)
    (hsolve : ∀ u s res, o.solve u s = .ok res → res.length = 1) :
    ∀ (solvers : List String) (es : ExecState) r,
      runPasses o solvers allSolvers requirements pythonVersion excludePackages transitive
        fuel es = some r →
      ∃ results es', r = (.ok results, es') := by
  intro solvers
  induction solvers with
  | nil =>
    intro es r h
    simp only [runPasses, Option.some.injEq] at h
    exact ⟨[], es, h.symm⟩
  | cons s rest ih =>
    intro es r h
    simp only [runPasses] at h
    cases hd : doResolveIndexFrom o s allSolvers requirements pythonVersion excludePackages
        transitive fuel es with
    | none => simp only [hd] at h; exact Option.noConfusion h
    | some pr =>
      obtain ⟨p, es₁, hpr⟩ := doResolveIndexFrom_ok o s allSolvers requirements pythonVersion
        excludePackages transitive fuel es (hvenv es.ix) (hsetup (es.ix + 1))
        (hpdt (es.ix + 2)) hhash hsolve pr hd
      subst hpr
      simp only [hd] at h
      cases hr : runPasses o rest allSolvers requirements pythonVersion excludePackages
          transitive fuel es₁ with
      | none => simp only [hr] at h; exact Option.noConfusion h
      | some pr2 =>
        obtain ⟨results, es₂, hpr2⟩ := ih es₁ pr2 hr
        subst hpr2
        simp only [hr, Option.some.injEq] at h
        exact ⟨_, _, h.symm⟩

/-- C3 (amended, confirmed).  Per-package failures are captured; only
setup and baseline failures escape.  First conjunct, one pass
(`_do_resolve_index`): if just the three commands issued outside every
`try` block succeed — the virtualenv creation, the pipdeptree
installation and the baseline inventory capture, constrained only at
their exact call positions `es.ix`, `es.ix + 1` and `es.ix + 2` — and the
content-hash and one-package solver contracts hold, the pass returns a
complete PassOut.  Every probe command is left unconstrained: the
force-install, the pre- and post-install inventory inspections and the
restore may exit non-zero in any combination, and the resulting
`CommandError`s are captured as error records instead of aborting the
pass.  Second conjunct, the whole call: under the same contracts with
every setup/baseline command succeeding, `resolve` with a well-formed
python version never raises — requirement parse failures and
version-resolution failures (`NotFound` or any other solver exception,
both modelled by the unconstrained solve outcomes) likewise end up inside
the returned PassResults.  (The counterexample shows the converse: a
setup failure does abort the call, so the original claim is too
strong.) -/
theorem c3_per_package_failures_captured :
    (∀ (o : Oracle) (solverUrl : String) (allSolvers requirements : List String)
        (pythonVersion : Nat) (excludePackages : List String) (transitive : Bool)
        (fuel : Nat) (es : ExecState) (r : (Except PyErr PassOut) × ExecState),
      (o.exec es.ix "virtualenv -p python3 venv").rc = 0 →
      (o.exec (es.ix + 1) (pythonBinFor pythonVersion
          ++ " -m pip install pipdeptree")).rc = 0 →
      (o.exec (es.ix + 2) (pipdeptreeCommand (pythonBinFor pythonVersion))).rc = 0 →
      (∀ u n v, ∃ hs, o.getHashes u n v = .ok hs) →
      (∀ u s res, o.solve u s = .ok res → res.length = 1) →
      doResolveIndexFrom o solverUrl allSolvers requirements pythonVersion excludePackages
        transitive fuel es = some r →
      ∃ p es', r = (.ok p, es'))
    ∧ (∀ (o : Oracle) (requirements indexUrls : List String) (pythonVersion : Nat)
        (excludePackages : List String) (transitive : Bool) (fuel : Nat)
        (r : Except PyErr (List PassResult)),
      (pythonVersion = 2 ∨ pythonVersion = 3) →
      (∀ ix, (o.exec ix "virtualenv -p python3 venv").rc = 0) →
      (∀ ix, (o.exec ix (pythonBinFor pythonVersion
          ++ " -m pip install pipdeptree")).rc = 0) →
      (∀ ix, (o.exec ix (pipdeptreeCommand (pythonBinFor pythonVersion))).rc = 0) →
      (∀ u n v, ∃ hs, o.getHashes u n v = .ok hs) →
      (∀ u s res, o.solve u s = .ok res → res.length = 1) →
      resolve o requirements indexUrls pythonVersion excludePackages transitive fuel
        = some r →
      ∃ results, r = .ok results) := by
  constructor
  · intro o solverUrl allSolvers requirements pythonVersion excludePackages transitive
      fuel es r hvenv hsetup hbase hhash hsolve h
    exact doResolveIndexFrom_ok o solverUrl allSolvers requirements pythonVersion
      excludePackages transitive fuel es hvenv hsetup hbase hhash hsolve r h
  · intro o requirements indexUrls pythonVersion excludePackages transitive fuel r
      hpv hvenv hsetup hpdt hhash hsolve h
    unfold resolve at h
    rw [if_pos hpv] at h
    cases hr : runPasses o indexUrls indexUrls requirements pythonVersion excludePackages
        transitive fuel ⟨0, []⟩ with
    | none => simp only [hr] at h; exact Option.noConfusion h
    | some pr =>
      obtain ⟨results, es', hpr⟩ := runPasses_ok o indexUrls requirements pythonVersion
        excludePackages transitive fuel hvenv hsetup hpdt hhash hsolve indexUrls ⟨0, []⟩ pr hr
      subst hpr
      simp only [hr, Option.some.injEq] at h
      exact ⟨results, h.symm⟩

/-- C3 amended witness.  First conjunct at a pass whose probe inspection
actually fails: only calls 0, 1 and 2 (virtualenv, pipdeptree install,
baseline inventory) succeed, every later command — including the probe's
inventory inspection — exits non-zero, yet the pass completes with the
probe failure recorded as a command_error entry.  Second conjunct at an
environment where every command succeeds but the one requirement fails to
parse: the call completes normally and the parse failure sits in
`unparsed`. -/
theorem c3_per_package_failures_captured_witness :
    (∃ p es', ((.ok probeFailPass, probeFailES) : (Except PyErr PassOut) × ExecState)
        = (.ok p, es'))
    ∧ (∃ results, (Except.ok [(⟨[], [], [⟨"x", "bad requirement"⟩], [], []⟩ : PassResult)]
        : Except PyErr (List PassResult)) = .ok results) :=
  ⟨c3_per_package_failures_captured.1 probeFailOracle "i" ["i"] ["foo"] 3 [] true 2 ⟨0, []⟩
      (.ok probeFailPass, probeFailES) rfl rfl rfl (fun _ _ _ => ⟨[], rfl⟩)
      (fun _ _ res hc => by injection hc with h1; subst h1; rfl) rfl,
   c3_per_package_failures_captured.2 unparsedOracle ["x"] ["i"] 3 [] true 0
      (.ok [⟨[], [], [⟨"x", "bad requirement"⟩], [], []⟩])
      (Or.inr rfl) (fun _ => rfl) (fun _ => rfl) (fun _ => rfl)
      (fun _ _ _ => ⟨[], rfl⟩) (fun _ _ _ hc => SolveOutcome.noConfusion hc) rfl⟩

lemma traceBin_refl (pythonBin : String) (es : ExecState) :
    TraceBinPrefixed pythonBin es es :=
  ⟨[], by simp, fun c hc => absurd hc (List.not_mem_nil c)⟩

lemma traceBin_trans (pythonBin : String) (es₁ es₂ es₃ : ExecState)
    (h₁ : TraceBinPrefixed pythonBin es₁ es₂) (h₂ : TraceBinPrefixed pythonBin es₂ es₃) :
    TraceBinPrefixed pythonBin es₁ es₃ := by
  obtain ⟨cs₁, t₁, f₁⟩ := h₁
  obtain ⟨cs₂, t₂, f₂⟩ := h₂
  exact ⟨cs₁ ++ cs₂, by rw [t₂, t₁, List.append_assoc],
    fun c hc => (List.mem_append.mp hc).elim (f₁ c) (f₂ c)⟩

lemma prefixed_append (pythonBin s u : String) (h : ∃ t, s = pythonBin ++ t) :
    ∃ t, s ++ u = pythonBin ++ t := by
  obtain ⟨t, rfl⟩ := h
  exact ⟨t ++ u, by rw [String.append_assoc]⟩

lemma installCommand_prefixed (pythonBin package : String)
    (version indexUrl : Option String) :
    ∃ t, installCommand pythonBin package version indexUrl = pythonBin ++ t := by
  unfold installCommand
  exact prefixed_append pythonBin _ _ (prefixed_append pythonBin _ _
    (prefixed_append pythonBin _ _ ⟨_, rfl⟩))

lemma runCmd_trace (o : Oracle) (cmd : String) (b : Bool) (es : ExecState) :
    ((runCmd o cmd b es).2).trace = es.trace ++ [cmd] := by
  unfold runCmd
  dsimp only
  split <;> rfl

lemma runCmd_traceBin (o : Oracle) (cmd : String) (b : Bool) (es : ExecState)
    (pythonBin : String) (hc : ∃ s, cmd = pythonBin ++ s) :
    TraceBinPrefixed pythonBin es (runCmd o cmd b es).2 :=
  ⟨[cmd], by rw [runCmd_trace], by
    intro c hcm
    rw [List.mem_singleton] at hcm
    subst hcm
    exact hc⟩

lemma pipdeptree_traceBin (o : Oracle) (pythonBin : String) (es : ExecState) :
    TraceBinPrefixed pythonBin es (pipdeptree o pythonBin es).2 := by
  unfold pipdeptree
  cases hr : runCmd o (pipdeptreeCommand pythonBin) true es with
  | mk r es' =>
    have h := runCmd_traceBin o (pipdeptreeCommand pythonBin) true es pythonBin
      ⟨" -m pipdeptree --json", rfl⟩
    rw [hr] at h
    cases r <;> exact h

lemma getEnvironmentDetails_traceBin (o : Oracle) (pythonBin : String) (es : ExecState) :
    TraceBinPrefixed pythonBin es (getEnvironmentDetails o pythonBin es).2 := by
  unfold getEnvironmentDetails
  cases hr : pipdeptree o pythonBin es with
  | mk r es' =>
    have h := pipdeptree_traceBin o pythonBin es
    rw [hr] at h
    cases r with
    | error e => exact h
    | ok output =>
      dsimp only
      cases hm : output.mapM (fun entry => createEntry o entry none) with
      | error e => simp only [hm]; exact h
      | ok entries => simp only [hm]; exact h

lemma installAndInspect_traceBin (o : Oracle) (pythonBin package : String)
    (version indexUrl : Option String) (clean : Bool) (es : ExecState) :
    TraceBinPrefixed pythonBin es
      (installAndInspect o pythonBin package version indexUrl clean es).2.1 := by
  unfold installAndInspect
  cases hp1 : pipdeptree o pythonBin es with
  | mk r1 es₁ =>
    have t1 : TraceBinPrefixed pythonBin es es₁ := by
      have h := pipdeptree_traceBin o pythonBin es
      rw [hp1] at h
      exact h
    cases r1 with
    | error e => exact t1
    | ok out0 =>
      dsimp only
      cases hr2 : runCmd o (installCommand pythonBin package version indexUrl) true es₁ with
      | mk r2 es₂ =>
        have t2 : TraceBinPrefixed pythonBin es₁ es₂ := by
          have h := runCmd_traceBin o (installCommand pythonBin package version indexUrl)
            true es₁ pythonBin (installCommand_prefixed pythonBin package version indexUrl)
          rw [hr2] at h
          exact h
        cases r2 with
        | error e2 => exact traceBin_trans pythonBin es es₁ es₂ t1 t2
        | ok c2 =>
          dsimp only
          cases hp2 : pipdeptree o pythonBin es₂ with
          | mk r3 es₃ =>
            have t3 : TraceBinPrefixed pythonBin es₂ es₃ := by
              have h := pipdeptree_traceBin o pythonBin es₂
              rw [hp2] at h
              exact h
            have t13 : TraceBinPrefixed pythonBin es es₃ :=
              traceBin_trans pythonBin es es₂ es₃
                (traceBin_trans pythonBin es es₁ es₂ t1 t2) t3
            cases r3 with
            | error e3 => exact t13
            | ok out1 =>
              dsimp only
              cases clean with
              | false => exact t13
              | true =>
                cases hprev : pdtFind out0 package with
                | some prev =>
                  refine traceBin_trans pythonBin es es₃ _ t13 ?_
                  exact runCmd_traceBin o _ false es₃ pythonBin
                    (prefixed_append pythonBin _ _ (prefixed_append pythonBin _ _
                      (prefixed_append pythonBin _ _ ⟨_, rfl⟩)))
                | none =>
                  refine traceBin_trans pythonBin es es₃ _ t13 ?_
                  exact runCmd_traceBin o _ false es₃ pythonBin
                    (prefixed_append pythonBin _ _ ⟨_, rfl⟩)

lemma processPackage_traceBin (o : Oracle) (pythonBin indexUrl : String)
    (allSolvers : List String) (transitive : Bool) (st : PassState)
    (packageName packageVersion : String) (es : ExecState) :
    TraceBinPrefixed pythonBin es
      (processPackage o pythonBin indexUrl allSolvers transitive st packageName
        packageVersion es).2 := by
  unfold processPackage
  cases hii : installAndInspect o pythonBin packageName (some packageVersion) (some indexUrl)
      true es with
  | mk r rest =>
    obtain ⟨es₂, b⟩ := rest
    have t := installAndInspect_traceBin o pythonBin packageName (some packageVersion)
      (some indexUrl) true es
    rw [hii] at t
    cases r with
    | error e => cases e <;> exact t
    | ok oi =>
      cases oi with
      | none => exact t
      | some packageInfo =>
        dsimp only
        cases hce : createEntry o packageInfo (some indexUrl) with
        | error e => simp only [hce]; exact t
        | ok entry =>
          simp only [hce]
          cases hrd : resolveDeps o allSolvers transitive entry.dependencies st with
          | error e => simp only [hrd]; exact t
          | ok pr =>
            obtain ⟨deps, st₂⟩ := pr
            simp only [hrd]
            exact t

lemma drainLoop_traceBin (o : Oracle) (pythonBin indexUrl : String)
    (allSolvers : List String) (transitive : Bool) :
    ∀ (fuel : Nat) (st : PassState) (es : ExecState) r (es' : ExecState),
      drainLoop o pythonBin indexUrl allSolvers transitive fuel st es = some (r, es') →
      TraceBinPrefixed pythonBin es es' := by
  intro fuel
  induction fuel with
  | zero =>
    intro st es r es' h
    simp only [drainLoop] at h
    cases hq : st.queue with
    | nil =>
      simp only [hq, Option.some.injEq, Prod.mk.injEq] at h
      obtain ⟨-, h2⟩ := h
      exact h2 ▸ traceBin_refl pythonBin es
    | cons a t => simp only [hq] at h; exact Option.noConfusion h
  | succ n ih =>
    intro st es r es' h
    simp only [drainLoop] at h
    cases hq : st.queue with
    | nil =>
      simp only [hq, Option.some.injEq, Prod.mk.injEq] at h
      obtain ⟨-, h2⟩ := h
      exact h2 ▸ traceBin_refl pythonBin es
    | cons pr rest =>
      obtain ⟨pn, pv⟩ := pr
      simp only [hq] at h
      cases hp : processPackage o pythonBin indexUrl allSolvers transitive
          { st with queue := rest, probed := st.probed ++ [(pn, pv)] } pn pv es with
      | mk r₁ es₂ =>
        have t1 := processPackage_traceBin o pythonBin indexUrl allSolvers transitive
          { st with queue := rest, probed := st.probed ++ [(pn, pv)] } pn pv es
        rw [hp] at t1
        cases r₁ with
        | error e =>
          simp only [hp, Option.some.injEq, Prod.mk.injEq] at h
          obtain ⟨-, h2⟩ := h
          exact h2 ▸ t1
        | ok st₁ =>
          simp only [hp] at h
          exact traceBin_trans pythonBin es es₂ es' t1 (ih st₁ es₂ r es' h)

lemma traceBin_to_venv (es es₁ es' : ExecState) (pythonBin : String)
    (h1 : es₁.trace = es.trace ++ ["virtualenv -p python3 venv"])
    (h2 : TraceBinPrefixed pythonBin es₁ es') :
    ∃ cs, es'.trace = es.trace ++ "virtualenv -p python3 venv" :: cs
      ∧ ∀ c ∈ cs, ∃ s, c = pythonBin ++ s := by
  obtain ⟨cs, hcs, hpref⟩ := h2
  exact ⟨cs, by rw [hcs, h1, List.append_assoc]; rfl, hpref⟩

/-- C10 (confirmed).  Every pass begins by creating the probe environment
with the literal command `virtualenv -p python3 venv`, whatever
`python_version` is; every subsequent command of the pass (pipdeptree
installation, inventory queries, installs, restores) runs through the
python binary selected by `python_version` — `venv/bin/python3` when it is
3, `venv/bin/python2` otherwise. -/
theorem c10_virtualenv_fixed_and_python_bin_selected (o : Oracle) (solverUrl : String)
    (allSolvers : List String) (requirements : List String) (pythonVersion : Nat)
    (excludePackages : List String) (transitive : Bool) (fuel : Nat) (es : ExecState)
    (r : Except PyErr PassOut) (es' : ExecState)
    (h : doResolveIndexFrom o solverUrl allSolvers requirements pythonVersion excludePackages
        transitive fuel es = some (r, es')) :
    ∃ cs, es'.trace = es.trace ++ "virtualenv -p python3 venv" :: cs
      ∧ ∀ c ∈ cs, ∃ s, c = pythonBinFor pythonVersion ++ s := by
  unfold doResolveIndexFrom at h
  cases hv : runCmd o "virtualenv -p python3 venv" true es with
  | mk r1 es₁ =>
    have htr1 : es₁.trace = es.trace ++ ["virtualenv -p python3 venv"] := by
      have h2 := runCmd_trace o "virtualenv -p python3 venv" true es
      rw [hv] at h2
      exact h2
    cases r1 with
    | error e =>
      simp only [hv, Option.some.injEq, Prod.mk.injEq] at h
      obtain ⟨-, h2⟩ := h
      exact traceBin_to_venv es es₁ es' (pythonBinFor pythonVersion) htr1
        (h2 ▸ traceBin_refl (pythonBinFor pythonVersion) es₁)
    | ok c1 =>
      simp only [hv] at h
      refine traceBin_to_venv es es₁ es' (pythonBinFor pythonVersion) htr1 ?_
      cases hpi : runCmd o (pythonBinFor pythonVersion ++ " -m pip install pipdeptree")
          true es₁ with
      | mk r2 es₂ =>
        have t2 : TraceBinPrefixed (pythonBinFor pythonVersion) es₁ es₂ := by
          have h2 := runCmd_traceBin o (pythonBinFor pythonVersion
            ++ " -m pip install pipdeptree") true es₁ (pythonBinFor pythonVersion)
            ⟨" -m pip install pipdeptree", rfl⟩
          rw [hpi] at h2
          exact h2
        cases r2 with
        | error e =>
          simp only [hpi, Option.some.injEq, Prod.mk.injEq] at h
          obtain ⟨-, h2⟩ := h
          exact h2 ▸ t2
        | ok c2 =>
          simp only [hpi] at h
          cases hs : seedPhase o solverUrl excludePackages requirements initialPassState with
          | error e =>
            simp only [hs, Option.some.injEq, Prod.mk.injEq] at h
            obtain ⟨-, h2⟩ := h
            exact h2 ▸ t2
          | ok seedSt =>
            simp only [hs] at h
            cases he : getEnvironmentDetails o (pythonBinFor pythonVersion) es₂ with
            | mk r3 es₃ =>
              have t3 : TraceBinPrefixed (pythonBinFor pythonVersion) es₂ es₃ := by
                have h2 := getEnvironmentDetails_traceBin o (pythonBinFor pythonVersion) es₂
                rw [he] at h2
                exact h2
              have t23 := traceBin_trans (pythonBinFor pythonVersion) es₁ es₂ es₃ t2 t3
              cases r3 with
              | error e =>
                simp only [he, Option.some.injEq, Prod.mk.injEq] at h
                obtain ⟨-, h2⟩ := h
                exact h2 ▸ t23
              | ok env =>
                simp only [he] at h
                cases hd : drainLoop o (pythonBinFor pythonVersion) solverUrl allSolvers
                    transitive fuel seedSt es₃ with
                | none => simp only [hd] at h; exact Option.noConfusion h
                | some pr =>
                  obtain ⟨r4, es₄⟩ := pr
                  have t4 := drainLoop_traceBin o (pythonBinFor pythonVersion) solverUrl
                    allSolvers transitive fuel seedSt es₃ r4 es₄ hd
                  have t24 := traceBin_trans (pythonBinFor pythonVersion) es₁ es₃ es₄ t23 t4
                  cases r4 with
                  | error e =>
                    simp only [hd, Option.some.injEq, Prod.mk.injEq] at h
                    obtain ⟨-, h2⟩ := h
                    exact h2 ▸ t24
                  | ok finalSt =>
                    simp only [hd, Option.some.injEq, Prod.mk.injEq] at h
                    obtain ⟨-, h2⟩ := h
                    exact h2 ▸ t24

/-- C10 witness: in a concrete pass with python version 3, the first
command is the fixed virtualenv invocation and the remaining commands all
run through venv/bin/python3. -/
theorem c10_virtualenv_fixed_and_python_bin_selected_witness :
    ∃ cs, (⟨3, ["virtualenv -p python3 venv",
        "venv/bin/python3 -m pip install pipdeptree",
        "venv/bin/python3 -m pipdeptree --json"]⟩ : ExecState).trace
        = (⟨0, []⟩ : ExecState).trace ++ "virtualenv -p python3 venv" :: cs
      ∧ ∀ c ∈ cs, ∃ s, c = pythonBinFor 3 ++ s :=
  c10_virtualenv_fixed_and_python_bin_selected allOkOracle "i" ["i"] [] 3 [] true 0 ⟨0, []⟩
    (.ok (PassOut.mk initialPassState initialPassState []))
    ⟨3, ["virtualenv -p python3 venv", "venv/bin/python3 -m pip install pipdeptree",
      "venv/bin/python3 -m pipdeptree --json"]⟩ rfl

end ThothSolver
